import Mathlib

/-!
Verification development for the nightingale-rose-digitizer repository.

The interactive digitizer (src/app.py) is embedded as a pure state machine:
Python floats are idealized as rationals, Python dicts as association lists
(in insertion order, which Python preserves), the on-disk files as a map from
path to file contents, and Python exceptions as `Except` errors (snapshot
loading distinguishes inputs on which Python raises from inputs whose
outcome — possibly a successful load of an ill-typed value — this model
leaves unmodeled).
The re-plot script (src/plot-rose.py) is embedded as pure functions on
rational area tables, with the square-root radius conversion over ℝ.
-/

set_option maxHeartbeats 1000000

namespace Digitizer

/-- JSON values as produced by json.dump / json.load.  Numbers are idealized
as rationals; objects are key/value lists in insertion order (Python dicts). -/
inductive Json where
  | null : Json
  | bool (b : Bool) : Json
  | num (q : ℚ) : Json
  | str (s : String) : Json
  | arr (elems : List Json) : Json
  | obj (fields : List (String × Json)) : Json

/-- app.py lines 98-102, class Measurement. -/
structure Measurement where
  radius_px : ℚ
  click_xy : Option (ℚ × ℚ)
  is_missing : Bool
deriving DecidableEq

/-- app.py lines 104-111, class ProjectData.  The `data` dict-of-dicts is an
association list keyed by month, each row an association list keyed by
category (Python dicts iterate in insertion order). -/
structure ProjectData where
  image_path : String
  diagram_key : String
  center_xy : Option (ℚ × ℚ)
  months : List String
  categories : List String
  data : List (String × List (String × Option Measurement))
deriving DecidableEq

/-- app.py line 40, CATEGORIES. -/
def CATEGORIES : List String := ["preventable_disease", "wounds", "other_causes"]

/-- app.py lines 114-125, make_empty_project. -/
def make_empty_project (image_path diagram_key : String)
    (months categories : List String) : ProjectData :=
  { image_path := image_path
    diagram_key := diagram_key
    center_xy := none
    months := months
    categories := categories
    data := months.map (fun m => (m, categories.map (fun c => (c, none)))) }

section AList

variable {β : Type}

/-- Python dict read `d[k]` restricted to its first hit: returns the value of
the first pair with key `k` (Python dict keys are unique, so this is exact). -/
def alookup (k : String) : List (String × β) → Option β
  | [] => none
  | (k', v) :: rest => if k' = k then some v else alookup k rest

/-- Python dict assignment `d[k] = v`: replaces the value of an existing key in
place, otherwise appends the new key at the end (dict insertion order). -/
def aupd (k : String) (v : β) : List (String × β) → List (String × β)
  | [] => [(k, v)]
  | (k', v') :: rest => if k' = k then (k, v) :: rest else (k', v') :: aupd k v rest

end AList

/-- The nested-dict read `p.data[m][c]`.  A missing month or category key
raises KeyError in Python; here it reads as `none`.  Every claim that could
distinguish the two carries the completeness invariant (each (month, category)
pair present), under which the two semantics agree. -/
def dataGet (data : List (String × List (String × Option Measurement)))
    (m c : String) : Option Measurement :=
  match alookup m data with
  | none => none
  | some row => (alookup c row).getD none

/-- The nested-dict write `p.data[m][c] = v`: the month row must already exist
(Python raises KeyError otherwise; here the write is dropped), and the
category key is updated in place or appended, as Python dict assignment does. -/
def setCell (data : List (String × List (String × Option Measurement)))
    (m c : String) (v : Option Measurement) :
    List (String × List (String × Option Measurement)) :=
  data.map (fun pr => if pr.1 = m then (m, aupd c v pr.2) else pr)

/-! ## Serialization (app.py lines 141-188) -/

/-- The measurement dict built at app.py lines 157-161.  A `click_xy` tuple is
always a non-empty 2-tuple, so the Python truthiness test `if meas.click_xy`
is exactly the `Option` match. -/
def measToJson (meas : Measurement) : Json :=
  .obj [("radius_px", .num meas.radius_px),
        ("click_xy", match meas.click_xy with
                     | some (x, y) => .arr [.num x, .num y]
                     | none => .null),
        ("is_missing", .bool meas.is_missing)]

/-- One cell of the serialized data mapping (app.py lines 153-161). -/
def cellJson (v : Option Measurement) : Json :=
  match v with
  | none => .null
  | some meas => measToJson meas

/-- The serialized `center_xy` (app.py line 145); a center, when present, is a
non-empty 2-tuple, hence truthy. -/
def centerJson (c : Option (ℚ × ℚ)) : Json :=
  match c with
  | some (x, y) => .arr [.num x, .num y]
  | none => .null

/-- One serialized month row (app.py lines 151-161). -/
def rowToJson (data : List (String × List (String × Option Measurement)))
    (m : String) (categories : List String) : Json :=
  .obj (categories.map (fun c => (c, cellJson (dataGet data m c))))

/-- app.py lines 141-162, project_to_dict. -/
def project_to_dict (p : ProjectData) : Json :=
  .obj [("image_path", .str p.image_path),
        ("diagram_key", .str p.diagram_key),
        ("center_xy", centerJson p.center_xy),
        ("months", .arr (p.months.map .str)),
        ("categories", .arr (p.categories.map .str)),
        ("data", .obj (p.months.map (fun m => (m, rowToJson p.data m p.categories))))]

/-- How a conversion step of dict_to_project can fail to produce a
well-typed project.  `raises` marks inputs on which the Python code raises an
exception (at startup the surrounding try/except catches it); `unmodeled`
marks inputs whose Python outcome this model does not represent — Python may
load them, possibly into values outside the dataclass's declared types (a raw
non-string image_path, a 3-tuple center, ...) — and no theorem in this file
asserts anything about them. -/
inductive LoadErr where
  | raises (msg : String) : LoadErr
  | unmodeled (msg : String) : LoadErr

/-- Python dict read `d[k]`: KeyError when the key is absent. -/
def keyE (k : String) (fields : List (String × Json)) : Except LoadErr Json :=
  match alookup k fields with
  | some v => .ok v
  | none => .error (.raises ("KeyError: " ++ k))

/-- The numeric value of a list of decimal digit characters. -/
def natOfDigits (cs : List Char) : ℕ :=
  cs.foldl (fun n c => 10 * n + (c.toNat - 48)) 0

def allDigits (cs : List Char) : Bool := cs.all Char.isDigit

/-- An optionally signed run of digits (the exponent part of a float
literal). -/
def parseExp : List Char → Option ℤ
  | '-' :: ds => if ds.isEmpty || !allDigits ds then none else some (-(natOfDigits ds : ℤ))
  | '+' :: ds => if ds.isEmpty || !allDigits ds then none else some (natOfDigits ds : ℤ)
  | ds => if ds.isEmpty || !allDigits ds then none else some (natOfDigits ds : ℤ)

/-- `digits`, `digits.digits`, `digits.` or `.digits`. -/
def parseMantissa (cs : List Char) : Option ℚ :=
  match cs.splitOn '.' with
  | [ds] => if ds.isEmpty || !allDigits ds then none else some (natOfDigits ds : ℚ)
  | [ip, fp] =>
      if (ip.isEmpty && fp.isEmpty) || !allDigits ip || !allDigits fp then none
      else some ((natOfDigits ip : ℚ) + (natOfDigits fp : ℚ) / (10 : ℚ) ^ fp.length)
  | _ => none

/-- The plain decimal/scientific float literals
(`[+-]? digits [. digits]? [eE [+-]? digits]?`), as Python's `float(str)`
reads them. -/
def parseFloat (s : String) : Option ℚ :=
  let step : List Char → Bool × List Char := fun cs =>
    match cs with
    | '-' :: rest => (true, rest)
    | '+' :: rest => (false, rest)
    | _ => (false, cs)
  let (neg, body) := step s.toList
  let signed : ℚ → ℚ := fun q => if neg then -q else q
  match (body.map Char.toLower).splitOn 'e' with
  | [mant] => (parseMantissa mant).map signed
  | [mant, ex] => do
      let m ← parseMantissa mant
      let e ← parseExp ex
      some (signed (m * (10 : ℚ) ^ e))
  | _ => none

/-- Python `float(v)` on a JSON value.  Numbers and booleans convert; a
string is parsed as a float literal (strings Python also accepts but this
parser does not — whitespace-padded, underscored, `inf`/`nan`, non-ASCII
digits — are left unmodeled); `None`, lists and dicts raise TypeError. -/
def pyFloat : Json → Except LoadErr ℚ
  | .num q => .ok q
  | .bool true => .ok 1
  | .bool false => .ok 0
  | .str s =>
      (match parseFloat s with
       | some q => .ok q
       | none => .error (.unmodeled ("float() of the string " ++ s)))
  | .null => .error (.raises "TypeError: float() argument")
  | .arr _ => .error (.raises "TypeError: float() argument")
  | .obj _ => .error (.raises "TypeError: float() argument")

/-- Python truthiness of a JSON value, for the raw `is_missing` field. -/
def pyTruthy : Json → Bool
  | .null => false
  | .bool b => b
  | .num q => q != 0
  | .str s => s != ""
  | .arr xs => !xs.isEmpty
  | .obj fs => !fs.isEmpty

/-- `tuple(d[center_xy]) if d[center_xy] else None` (app.py line 168).
Every falsy value (null, False, 0, "", [], {}) gives no center; a two-number
list gives the center pair; `tuple()` of a truthy number or True raises
TypeError.  On every other truthy value Python builds a raw tuple without
checking (characters of a string, keys of a dict, a 1- or 3-element or
non-numeric list), leaving the declared `Optional[Tuple[float, float]]` type
— unmodeled. -/
def asCenter : Json → Except LoadErr (Option (ℚ × ℚ))
  | .null => .ok none
  | .bool false => .ok none
  | .bool true => .error (.raises "TypeError: bool is not iterable")
  | .num q => if q = 0 then .ok none else .error (.raises "TypeError: number is not iterable")
  | .str s => if s = "" then .ok none else .error (.unmodeled "center_xy from a raw string")
  | .arr [] => .ok none
  | .arr [.num x, .num y] => .ok (some (x, y))
  | .arr _ => .error (.unmodeled "center_xy tuple outside Optional Tuple float float")
  | .obj [] => .ok none
  | .obj _ => .error (.unmodeled "center_xy tuple of raw dict keys")

/-- The stored `image_path` / `diagram_key` fields (app.py lines 166-167).
Python assigns the value raw with no check; a non-string loads that raw value
into the str-typed field — outside this model's declared types, so
unmodeled. -/
def asStr : Json → Except LoadErr String
  | .str s => .ok s
  | _ => .error (.unmodeled "a non-string assigned raw to a str field")

def strListOf : List Json → Except LoadErr (List String)
  | [] => .ok []
  | j :: js => do
      let s ← asStr j
      let rest ← strListOf js
      .ok (s :: rest)

/-- The stored `months` / `categories` lists (app.py lines 169-170).  Python
assigns the value raw; iterating a number, bool or None in the data loop then
raises TypeError.  A string or dict iterates (characters / keys) and a list
may hold non-string elements; the outcomes there depend on the data mapping's
keys and can load ill-typed values — unmodeled. -/
def asStrList : Json → Except LoadErr (List String)
  | .arr xs => strListOf xs
  | .str _ => .error (.unmodeled "months or categories from a raw string")
  | .obj _ => .error (.unmodeled "months or categories from a raw dict")
  | .null => .error (.raises "TypeError: NoneType is not iterable")
  | .bool _ => .error (.raises "TypeError: bool is not iterable")
  | .num _ => .error (.raises "TypeError: number is not iterable")

/-- app.py lines 176-187: one cell of the loaded data mapping.  `v.get` has a
default, so `click_xy`/`is_missing` may be absent; `radius_px` is a plain
index (KeyError when absent); indexing `click_xy[0]`/`[1]` ignores extra list
elements, raises IndexError on a short list, TypeError on numbers and bools,
KeyError on dicts (JSON object keys are strings, never 0), and indexes the
characters of a raw string — unmodeled.  Calling `.get` on a non-dict raises
AttributeError. -/
def json_to_meas (v : Json) : Except LoadErr (Option Measurement)  :=
  match v with
  | .null => .ok none
  | .obj fs => do
      let click ← match alookup "click_xy" fs with
        | none => .ok none
        | some .null => .ok none
        | some (.arr (a :: b :: _)) => do
            let x ← pyFloat a
            let y ← pyFloat b
            .ok (some (x, y))
        | some (.arr _) => .error (.raises "IndexError: list index out of range")
        | some (.num _) => .error (.raises "TypeError: number is not subscriptable")
        | some (.bool _) => .error (.raises "TypeError: bool is not subscriptable")
        | some (.obj _) => .error (.raises "KeyError: 0")
        | some (.str _) => .error (.unmodeled "click_xy indexed from a raw string")
      let r ← match alookup "radius_px" fs with
        | none => .error (.raises "KeyError: radius_px")
        | some rj => pyFloat rj
      let miss := match alookup "is_missing" fs with
        | none => false
        | some mj => pyTruthy mj
      .ok (some { radius_px := r, click_xy := click, is_missing := miss })
  | _ => .error (.raises "AttributeError: no method get")

/-- Indexing `x[key]` with a string key into a JSON value: raises (TypeError
for numbers, bools, None, lists and strings, since string indices must be
integers) unless it is an object. -/
def asObjE (msg : String) : Json → Except LoadErr (List (String × Json))
  | .obj fs => .ok fs
  | _ => .error (.raises msg)

/-- The inner loop of app.py lines 173-187 for one month `m`: for each
category, read `d[data][m][c]` and convert it.  `d[data]` is only indexed
inside the category loop, exactly as in the source. -/
def convCells (fields : List (String × Json)) (m : String) :
    List String → Except LoadErr (List (String × Option Measurement))
  | [] => .ok []
  | c :: cs => do
      let dj ← keyE "data" fields
      let dobj ← asObjE "data is not an object" dj
      let mrowj ← keyE m dobj
      let mrow ← asObjE "month row is not an object" mrowj
      let vj ← keyE c mrow
      let v ← json_to_meas vj
      let rest ← convCells fields m cs
      .ok ((c, v) :: rest)

/-- The outer loop of app.py lines 173-187: rebuild the data mapping month by
month, in month order. -/
def convData (fields : List (String × Json)) :
    List String → List String →
      Except LoadErr (List (String × List (String × Option Measurement)))
  | [], _ => .ok []
  | m :: ms, cats => do
      let row ← convCells fields m cats
      let rest ← convData fields ms cats
      .ok ((m, row) :: rest)

/-- app.py lines 164-188, dict_to_project.  An exception the Python body
raises (KeyError, TypeError, ValueError, IndexError) is `.error (.raises _)`;
inputs Python loads into values outside the dataclass's declared types (or
whose outcome this model does not represent) are `.error (.unmodeled _)`. -/
def dict_to_project (d : Json) : Except LoadErr ProjectData :=
  match d with
  | .obj fields => do
      let ipj ← keyE "image_path" fields
      let ip ← asStr ipj
      let dkj ← keyE "diagram_key" fields
      let dk ← asStr dkj
      let cj ← keyE "center_xy" fields
      let center ← asCenter cj
      let mj ← keyE "months" fields
      let months ← asStrList mj
      let catj ← keyE "categories" fields
      let cats ← asStrList catj
      let data ← convData fields months cats
      .ok { image_path := ip, diagram_key := dk, center_xy := center,
            months := months, categories := cats, data := data }
  | _ => .error (.raises "TypeError: the snapshot is not a dict")

/-! ## Files and persistence (app.py lines 135-139, 239-247, 742-751) -/

/-- One field of a CSV row, with the `:.6f` / `:.3f` float formatting
abstracted away (the field holds the number itself). -/
inductive CsvField where
  | empty : CsvField
  | str (s : String) : CsvField
  | int (n : ℤ) : CsvField
  | num (q : ℚ) : CsvField
deriving DecidableEq

/-- Contents of a file on disk: either text that is not valid JSON, a JSON
document, or the CSV export (a list of rows of fields). -/
inductive FileContent where
  | invalid : FileContent
  | json (j : Json) : FileContent
  | csvRows (rows : List (List CsvField)) : FileContent

/-- The directory the app works in: a map from path to file contents. -/
def FS : Type := String → Option FileContent

/-- Writing a file at `path` (the `open(tmp, "w")` + `json.dump` step). -/
def fsWrite (fs : FS) (path : String) (content : FileContent) : FS :=
  fun q => if q = path then some content else fs q

/-- `os.replace(src, dst)`: atomically rename `src` over `dst`. -/
def fsReplace (fs : FS) (src dst : String) : FS :=
  fun q => if q = dst then fs src else if q = src then none else fs q

/-- app.py lines 135-139, safe_write_json: dump the payload to `path + ".tmp"`,
then rename the temporary file over `path`. -/
def safe_write_json (fs : FS) (path : String) (payload : Json) : FS :=
  fsReplace (fsWrite fs (path ++ ".tmp") (.json payload)) (path ++ ".tmp") path

/-- `json.load` on a file's contents: a JSONDecodeError (an exception) on
anything that is not a JSON document. -/
def json_load : FileContent → Except LoadErr Json
  | .invalid => .error (.raises "json.JSONDecodeError: invalid JSON")
  | .json j => .ok j
  | .csvRows _ => .error (.raises "json.JSONDecodeError: invalid JSON")

/-- app.py lines 239-247 (DigitizerApp.__init__): if the save file exists, try
to parse and convert it; the bare `except Exception` catches any exception
raised inside the try and falls back to an empty project; a cleanly converted
project is kept as loaded, whatever its contents.  Inputs whose Python
outcome this model does not represent stay unmodeled (`.error`). -/
def loadProjectAtStart (fs : FS) (save_path image_path diagram_key : String)
    (months categories : List String) : Except String ProjectData :=
  match fs save_path with
  | none => .ok (make_empty_project image_path diagram_key months categories)
  | some content =>
      match (do
        let j ← json_load content
        dict_to_project j : Except LoadErr ProjectData) with
      | .ok p => .ok p
      | .error (.raises _) =>
          .ok (make_empty_project image_path diagram_key months categories)
      | .error (.unmodeled msg) => .error msg

/-! ## The interactive app state (app.py lines 208-786) -/

/-- The mutable state of DigitizerApp that the claims are about: the project,
the cursor, the centre-setting mode flag, the undo stack, and the on-disk
files.  The undo stack grows at the head here (Python appends and pops at the
end of its list; both are the same LIFO stack). -/
structure AppState where
  project : ProjectData
  month_i : ℕ
  cat_i : ℕ
  setting_center : Bool
  undo_stack : List (String × String × Option Measurement)
  save_path : String
  csv_path : String
  fs : FS

/-- app.py lines 467-468, current_month_cat.  Python indexes the lists and
would raise IndexError on an out-of-range cursor; here that is `none` (the
cursor stays in range in every reachable state). -/
def currentMonthCat (s : AppState) : Option (String × String) :=
  match s.project.months.get? s.month_i, s.project.categories.get? s.cat_i with
  | some m, some c => some (m, c)
  | _, _ => none

/-- app.py lines 738-740, DigitizerApp.save. -/
def saveOp (s : AppState) : AppState :=
  { s with fs := safe_write_json s.fs s.save_path (project_to_dict s.project) }

/-- app.py lines 589-598, next_item.  The length comparisons are over ℤ to
match Python's `len(...) - 1` on possibly empty lists. -/
def nextItem (s : AppState) : AppState :=
  if (s.month_i : ℤ) = (s.project.months.length : ℤ) - 1
      ∧ (s.cat_i : ℤ) = (s.project.categories.length : ℤ) - 1 then s
  else if s.cat_i + 1 ≥ s.project.categories.length then
    { s with cat_i := 0, month_i := s.month_i + 1 }
  else
    { s with cat_i := s.cat_i + 1 }

/-- app.py lines 600-609, prev_item, for the reachable (in-range) states:
step the category back, wrapping to the previous month's last category. -/
def prevItem (s : AppState) : AppState :=
  if s.month_i = 0 ∧ s.cat_i = 0 then s
  else if s.cat_i = 0 then
    { s with cat_i := s.project.categories.length - 1, month_i := s.month_i - 1 }
  else
    { s with cat_i := s.cat_i - 1 }

/-- app.py lines 470-473, toggle_center_mode. -/
def toggleCenterMode (s : AppState) : AppState :=
  { s with setting_center := !s.setting_center }

/-- app.py lines 475-543, on_click, for an accepted left click at (x, y) on
the image axes (the guards at lines 476-506 — wrong axes, right clicks,
re-entrancy, active zoom/pan — only drop the event).  `hypot` abstracts the
floating-point `dist` helper (app.py lines 132-133, math.hypot): its rounded
value is some rational, and no claim about this state machine depends on it;
the value itself is verified against the real Euclidean distance separately. -/
def onClick (hypot : ℚ × ℚ → ℚ × ℚ → ℚ) (x y : ℚ) (s : AppState) : AppState :=
  if s.setting_center then
    saveOp { s with
      project := { s.project with center_xy := some (x, y) },
      setting_center := false }
  else
    match s.project.center_xy with
    | none => s
    | some center =>
        match currentMonthCat s with
        | none => s
        | some (month, cat) =>
            let prev := dataGet s.project.data month cat
            let r := hypot center (x, y)
            let s1 : AppState :=
              { s with
                undo_stack := (month, cat, prev) :: s.undo_stack,
                project := { s.project with
                  data := setCell s.project.data month cat
                    (some { radius_px := r, click_xy := some (x, y), is_missing := false }) } }
            nextItem (saveOp s1)

/-- app.py lines 680-701, mark_missing. -/
def markMissingOp (s : AppState) : AppState :=
  match s.project.center_xy with
  | none => s
  | some _ =>
      match currentMonthCat s with
      | none => s
      | some (month, cat) =>
          let prev := dataGet s.project.data month cat
          let s1 : AppState :=
            { s with
              undo_stack := (month, cat, prev) :: s.undo_stack,
              project := { s.project with
                data := setCell s.project.data month cat
                  (some { radius_px := 0, click_xy := none, is_missing := true }) } }
          nextItem (saveOp s1)

/-- First index of an element satisfying `p` (the `enumerate` loops and
`list.index` calls of app.py). -/
def findIdxP {α : Type} (p : α → Bool) : List α → Option ℕ
  | [] => none
  | a :: as => if p a then some 0 else (findIdxP p as).map (· + 1)

/-- app.py lines 611-630, undo: pop the most recent (month, category,
previous-value) entry, write the previous value back, and move the cursor to
that cell.  `months.index`/`categories.index` raise ValueError for a name not
in the list (impossible for entries the app itself pushed); that case leaves
the state unchanged here. -/
def undoOp (s : AppState) : AppState :=
  match s.undo_stack with
  | [] => s
  | (month, cat, prev) :: rest =>
      match findIdxP (fun m => m = month) s.project.months,
            findIdxP (fun c => c = cat) s.project.categories with
      | some mi, some ci =>
          saveOp { s with
            undo_stack := rest,
            project := { s.project with data := setCell s.project.data month cat prev },
            month_i := mi,
            cat_i := ci }
      | _, _ => s

/-- The double loop of app.py lines 643-645 that sets every
(month, category) cell to None. -/
def clearData (months categories : List String)
    (data : List (String × List (String × Option Measurement))) :
    List (String × List (String × Option Measurement)) :=
  months.foldl (fun d m => categories.foldl (fun d' c => setCell d' m c none) d) data

/-- app.py lines 632-662, clear_all; `confirmed` is the answer to the
messagebox prompt (a "no" returns without touching anything). -/
def clearAllOp (confirmed : Bool) (s : AppState) : AppState :=
  if confirmed then
    saveOp { s with
      project := { s.project with
        data := clearData s.project.months s.project.categories s.project.data },
      undo_stack := [],
      month_i := 0,
      cat_i := 0 }
  else s

/-- app.py lines 664-672, _find_first_unfilled: the first (month, category)
cell, scanning categories within each month, whose value is None. -/
def firstUnfilled (data : List (String × List (String × Option Measurement)))
    (categories : List String) : List String → Option (ℕ × ℕ)
  | [] => none
  | m :: ms =>
      match findIdxP (fun c => (dataGet data m c).isNone) categories with
      | some ci => some (0, ci)
      | none => (firstUnfilled data categories ms).map (fun pr => (pr.1 + 1, pr.2))

/-- app.py lines 664-678, _find_first_unfilled / jump_to_unfilled: move the
cursor to the first unfilled cell, or to the last cell when every cell is
filled. -/
def jumpToUnfilledOp (s : AppState) : AppState :=
  match firstUnfilled s.project.data s.project.categories s.project.months with
  | some (mi, ci) => { s with month_i := mi, cat_i := ci }
  | none =>
      { s with month_i := s.project.months.length - 1,
               cat_i := s.project.categories.length - 1 }

/-- app.py lines 703-732, remeasure_current: clear the current cell (only when
it holds something), remembering it on the undo stack. -/
def remeasureOp (s : AppState) : AppState :=
  match s.project.center_xy with
  | none => s
  | some _ =>
      match currentMonthCat s with
      | none => s
      | some (month, cat) =>
          match dataGet s.project.data month cat with
          | none => s
          | some prev =>
              saveOp { s with
                undo_stack := (month, cat, some prev) :: s.undo_stack,
                project := { s.project with
                  data := setCell s.project.data month cat none } }

/-- app.py lines 742-751, reload: no try/except — a file that fails to parse
or convert raises out of the handler instead of falling back. -/
def reloadOp (s : AppState) : Except LoadErr AppState :=
  match s.fs s.save_path with
  | none => .ok s
  | some content => do
      let j ← json_load content
      let p ← dict_to_project j
      .ok { s with project := p, undo_stack := [] }

/-! ## CSV export (app.py lines 753-786) -/

/-- app.py lines 759-765: squared radii of the measured, non-missing cells,
in scan order. -/
def exportAreas (p : ProjectData) : List ℚ :=
  (p.months.map (fun m =>
    p.categories.filterMap (fun c =>
      match dataGet p.data m c with
      | none => none
      | some meas => if meas.is_missing then none else some (meas.radius_px ^ 2)))).flatten

/-- app.py line 766: `max(areas) if areas else 1.0`. -/
def maxArea (p : ProjectData) : ℚ :=
  match exportAreas p with
  | [] => 1
  | a :: rest => rest.foldl max a

/-- app.py line 769: the header row. -/
def headerRow : List CsvField :=
  [.str "month", .str "category", .str "is_missing", .str "radius_px",
   .str "area_rel", .str "area_norm", .str "click_x", .str "click_y"]

/-- One data row (app.py lines 772-783).  An unmeasured cell is written as
`f"{m},{c},,,,\n"` — six comma-separated fields.  A measured cell gets all
eight fields, with empty click coordinates for a missing marker. -/
def csvRow (p : ProjectData) (m c : String) : List CsvField :=
  match dataGet p.data m c with
  | none => [.str m, .str c, .empty, .empty, .empty, .empty]
  | some meas =>
      let im : ℤ := if meas.is_missing then 1 else 0
      let area_rel : ℚ := if meas.is_missing then 0 else meas.radius_px ^ 2
      let area_norm : ℚ := if maxArea p = 0 then 0 else area_rel / maxArea p
      match meas.click_xy with
      | none =>
          [.str m, .str c, .int im, .num meas.radius_px, .num area_rel,
           .num area_norm, .empty, .empty]
      | some (x, y) =>
          [.str m, .str c, .int im, .num meas.radius_px, .num area_rel,
           .num area_norm, .num x, .num y]

/-- app.py lines 768-783: the full CSV output, one row per (month, category)
pair after the header. -/
def exportRows (p : ProjectData) : List (List CsvField) :=
  headerRow :: (p.months.map (fun m => p.categories.map (fun c => csvRow p m c))).flatten

/-- app.py lines 753-786, export_csv: refuse without a center, otherwise write
the rows to the CSV path. -/
def exportCsvOp (s : AppState) : AppState :=
  match s.project.center_xy with
  | none => s
  | some _ => { s with fs := fsWrite s.fs s.csv_path (.csvRows (exportRows s.project)) }

/-! ## The re-plotter (src/plot-rose.py) -/

/-- Row-wise running sums: `DataFrame.cumsum(axis=1)` on one row
(plot-rose.py line 76). -/
def cumsumFrom (acc : ℚ) : List ℚ → List ℚ
  | [] => []
  | x :: xs => (acc + x) :: cumsumFrom (acc + x) xs

def cumsum (row : List ℚ) : List ℚ := cumsumFrom 0 row

/-- The cumulative-area table of one dataset: each month row summed across
the stacked categories (plot-rose.py lines 76, 131-132). -/
def cumTable (t : List (List ℚ)) : List (List ℚ) := t.map cumsum

/-- `DataFrame.max().max()` over a table of non-negative entries
(plot-rose.py lines 134-137); on the (NaN-free, non-negative) tables the
pipeline produces this equals the fold of `max` from 0. -/
def tableMax (t : List (List ℚ)) : ℚ :=
  t.foldl (fun acc row => row.foldl max acc) 0

/-- plot-rose.py lines 131-137: the larger of the two datasets' maximum
cumulative areas. -/
def globalMaxOf (tL tR : List (List ℚ)) : ℚ :=
  max (tableMax (cumTable tL)) (tableMax (cumTable tR))

/-- plot-rose.py lines 78-79: `if global_max <= 0: global_max = 1.0`. -/
def effectiveMax (g : ℚ) : ℚ := if g ≤ 0 then 1 else g

/-- plot-rose.py line 81: a cumulative area `a` becomes the wedge boundary
radius `sqrt(a / global_max)`. -/
noncomputable def wedgeRadius (a g : ℚ) : ℝ := Real.sqrt ((a : ℝ) / (g : ℝ))

/-- `a` is an entry of the table `t`. -/
def EntryOf (a : ℚ) (t : List (List ℚ)) : Prop := ∃ row ∈ t, a ∈ row

/-- Every entry of the table is non-negative (areas are squared radii,
clamped to 0 for missing/NaN cells by load_and_prepare). -/
def NonnegTable (t : List (List ℚ)) : Prop := ∀ row ∈ t, ∀ x ∈ row, 0 ≤ x

instance (a : ℚ) (t : List (List ℚ)) : Decidable (EntryOf a t) := by
  unfold EntryOf; infer_instance

instance (t : List (List ℚ)) : Decidable (NonnegTable t) := by
  unfold NonnegTable; infer_instance

/-! ## Measurement geometry over ℝ (app.py lines 132-133, 530-531, 690)

For the distance claim the pixel coordinates are idealized as real numbers
(exact arithmetic in place of floating point). -/

/-- A measurement with real-valued coordinates. -/
structure MeasurementR where
  radius_px : ℝ
  click_xy : Option (ℝ × ℝ)
  is_missing : Bool

/-- app.py lines 132-133, dist: `math.hypot(a[0] - b[0], a[1] - b[1])`. -/
noncomputable def hypotDist (a b : ℝ × ℝ) : ℝ :=
  Real.sqrt ((a.1 - b.1) ^ 2 + (a.2 - b.2) ^ 2)

/-- app.py lines 530-531: the measurement recorded by an accepted measuring
click — radius `dist(center, (x, y))`, the click's own coordinates, not
missing. -/
noncomputable def clickMeasurement (center click : ℝ × ℝ) : MeasurementR :=
  { radius_px := hypotDist center click, click_xy := some click, is_missing := false }

/-- app.py line 690: the missing marker — radius forced to zero, no click
coordinates. -/
def missingMeasurement : MeasurementR :=
  { radius_px := 0, click_xy := none, is_missing := true }

/-- A point of the image plane as a point of the Euclidean plane. -/
def toPlane (v : ℝ × ℝ) : EuclideanSpace ℝ (Fin 2) := ![v.1, v.2]

/-! ## Invariants, mutations and sample states -/

/-- The data mapping has exactly one entry per month, in month order, and
each month row exactly one entry per category, in category order. -/
def DCdata (months categories : List String)
    (d : List (String × List (String × Option Measurement))) : Prop :=
  d.map Prod.fst = months ∧ ∀ r ∈ d, r.2.map Prod.fst = categories

instance (months categories : List String)
    (d : List (String × List (String × Option Measurement))) :
    Decidable (DCdata months categories d) := by
  unfold DCdata; infer_instance

/-- The §3 data-model invariant: every (month, category) pair has an entry in
the data mapping, possibly null (unmeasured). -/
def DataComplete (p : ProjectData) : Prop :=
  DCdata p.months p.categories p.data

instance (p : ProjectData) : Decidable (DataComplete p) := by
  unfold DataComplete; infer_instance

/-- The app-state invariant: the project data is complete and every undo-stack
entry names a real month and category. -/
def StInv (s : AppState) : Prop :=
  DataComplete s.project ∧
    ∀ e ∈ s.undo_stack, e.1 ∈ s.project.months ∧ e.2.1 ∈ s.project.categories

instance (s : AppState) : Decidable (StInv s) := by
  unfold StInv; infer_instance

/-- The cursor points at a real cell. -/
def InRange (s : AppState) : Prop :=
  s.month_i < s.project.months.length ∧ s.cat_i < s.project.categories.length

instance (s : AppState) : Decidable (InRange s) := by
  unfold InRange; infer_instance

/-- The six project-state mutations of the spec: set center, record
measurement, mark missing, undo, clear all, remeasure. -/
inductive Mutation where
  | setCenter (x y : ℚ) : Mutation
  | record (x y : ℚ) : Mutation
  | markMissing : Mutation
  | undoStep : Mutation
  | clearAllStep : Mutation
  | remeasureStep : Mutation

/-- The condition under which each mutation actually mutates (rather than
returning early without touching the project): the mode selects the on_click
branch, measuring needs a center and an in-range cursor, undo needs a stack
entry naming a real cell, remeasure needs a non-empty current cell. -/
def mutGuard : Mutation → AppState → Bool
  | .setCenter _ _, s => s.setting_center
  | .record _ _, s => !s.setting_center && s.project.center_xy.isSome && decide (InRange s)
  | .markMissing, s => s.project.center_xy.isSome && decide (InRange s)
  | .undoStep, s =>
      match s.undo_stack with
      | [] => false
      | (month, cat, _) :: _ =>
          decide (month ∈ s.project.months) && decide (cat ∈ s.project.categories)
  | .clearAllStep, _ => true
  | .remeasureStep, s =>
      s.project.center_xy.isSome && decide (InRange s) &&
        (match currentMonthCat s with
         | some (month, cat) => (dataGet s.project.data month cat).isSome
         | none => false)

/-- Run one mutation (clear-all confirmed at the dialog). -/
def applyMutation (hypot : ℚ × ℚ → ℚ × ℚ → ℚ) : Mutation → AppState → AppState
  | .setCenter x y => onClick hypot x y
  | .record x y => onClick hypot x y
  | .markMissing => markMissingOp
  | .undoStep => undoOp
  | .clearAllStep => clearAllOp true
  | .remeasureStep => remeasureOp

/-- Every state-changing callback of the app (reload is handled separately,
as it can raise). -/
inductive Action where
  | click (x y : ℚ) : Action
  | toggleCenter : Action
  | nextStep : Action
  | prevStep : Action
  | jumpStep : Action
  | markMissing : Action
  | undoStep : Action
  | clearAllStep (confirmed : Bool) : Action
  | remeasureStep : Action
  | saveStep : Action
  | exportStep : Action

def stepAction (hypot : ℚ × ℚ → ℚ × ℚ → ℚ) : Action → AppState → AppState
  | .click x y => onClick hypot x y
  | .toggleCenter => toggleCenterMode
  | .nextStep => nextItem
  | .prevStep => prevItem
  | .jumpStep => jumpToUnfilledOp
  | .markMissing => markMissingOp
  | .undoStep => undoOp
  | .clearAllStep confirmed => clearAllOp confirmed
  | .remeasureStep => remeasureOp
  | .saveStep => saveOp
  | .exportStep => exportCsvOp

/-- The cell at cursor position (mi, ci) exists and is unfilled. -/
def CellNullAt (p : ProjectData) (mi ci : ℕ) : Prop :=
  ∃ m c, p.months.get? mi = some m ∧ p.categories.get? ci = some c ∧
    dataGet p.data m c = none

/-- Month-major, category-minor order on cursor positions. -/
def lexLe (a b : ℕ × ℕ) : Prop := a.1 < b.1 ∨ (a.1 = b.1 ∧ a.2 ≤ b.2)

/-! ### Concrete sample data for witnesses -/

/-- A sample measured click. -/
def mClick : Measurement := { radius_px := 5, click_xy := some (3, 4), is_missing := false }

/-- A sample project: two months, two categories, one recorded click, one
missing marker, two unfilled cells. -/
def pSample : ProjectData :=
  { image_path := "deaths.jpg"
    diagram_key := "right"
    center_xy := some (10, 20)
    months := ["1854-04", "1854-05"]
    categories := ["wounds", "other_causes"]
    data := [("1854-04", [("wounds", some mClick),
                          ("other_causes", some { radius_px := 0, click_xy := none, is_missing := true })]),
             ("1854-05", [("wounds", none), ("other_causes", none)])] }

/-- An empty directory. -/
def fsEmpty : FS := fun _ => none

/-- A sample app state over `pSample`, cursor at the first cell. -/
def sSample : AppState :=
  { project := pSample
    month_i := 0
    cat_i := 0
    setting_center := false
    undo_stack := []
    save_path := "progress_right.json"
    csv_path := "output_data_right.csv"
    fs := fsEmpty }

/-- A directory holding an unparseable save file. -/
def fsBad : FS :=
  fun q => if q = "progress_right.json" then some .invalid else none

/-- The sample state working against the unparseable save file. -/
def sBad : AppState := { sSample with fs := fsBad }

/-- app.py lines 22-29: the month labels of the right diagram, as
DigitizerApp.__init__ uses for its empty-project fallback. -/
def rightMonths : List String :=
  ["1854-04", "1854-05", "1854-06", "1854-07", "1854-08", "1854-09",
   "1854-10", "1854-11", "1854-12", "1855-01", "1855-02", "1855-03"]

/-- A well-formed JSON snapshot that violates the §3 schema — its category
list is not the fixed three-category list and its month list is not the
diagram's twelve months — yet converts cleanly (in Python exactly as here). -/
def jViol : Json :=
  .obj [("image_path", .str "deaths.jpg"),
        ("diagram_key", .str "right"),
        ("center_xy", .arr [.num 1, .num 2]),
        ("months", .arr [.str "1854-04"]),
        ("categories", .arr [.str "bogus"]),
        ("data", .obj [("1854-04", .obj [("bogus",
          .obj [("radius_px", .num 5), ("click_xy", .arr [.num 3, .num 4]),
                ("is_missing", .bool false)])])])]

/-- A directory whose save file holds the schema-violating snapshot. -/
def fsViol : FS :=
  fun q => if q = "progress_right.json" then some (.json jViol) else none

/-- The project the schema-violating snapshot loads into: a set center, a
bogus category and a recorded measurement — not an empty project. -/
def pViol : ProjectData :=
  { image_path := "deaths.jpg"
    diagram_key := "right"
    center_xy := some (1, 2)
    months := ["1854-04"]
    categories := ["bogus"]
    data := [("1854-04", [("bogus",
      some { radius_px := 5, click_xy := some (3, 4), is_missing := false })])] }

/-! ## Association-list lemmas -/

section AListLemmas

variable {β : Type}

@[simp] lemma alookup_nil (k : String) : alookup k ([] : List (String × β)) = none := rfl

lemma alookup_cons (k k' : String) (v : β) (l : List (String × β)) :
    alookup k ((k', v) :: l) = if k' = k then some v else alookup k l := rfl

lemma alookup_map_self (f : String → β) {m : String} :
    ∀ {ms : List String}, m ∈ ms → alookup m (ms.map (fun x => (x, f x))) = some (f m) := by
  intro ms hm
  induction ms with
  | nil => cases hm
  | cons a as ih =>
      rcases List.mem_cons.mp hm with h | h
      · subst h; simp [alookup]
      · by_cases hak : a = m
        · subst hak; simp [alookup]
        · simpa [alookup, hak] using ih h

lemma alookup_of_mem_nodup {k : String} {v : β} :
    ∀ {l : List (String × β)}, (l.map Prod.fst).Nodup → (k, v) ∈ l →
      alookup k l = some v := by
  intro l
  induction l with
  | nil => intro _ hmem; cases hmem
  | cons a as ih =>
      intro hnd hmem
      obtain ⟨k0, v0⟩ := a
      simp only [List.map_cons, List.nodup_cons] at hnd
      rcases List.mem_cons.mp hmem with h | h
      · cases h; simp [alookup]
      · have hk : k ∈ as.map Prod.fst := List.mem_map.mpr ⟨(k, v), h, rfl⟩
        have hne : k0 ≠ k := fun he => hnd.1 (by rw [he]; exact hk)
        simp [alookup, hne, ih hnd.2 h]

lemma alookup_isSome_of_mem_keys {l : List (String × β)} {k : String}
    (h : k ∈ l.map Prod.fst) : ∃ v, alookup k l = some v := by
  induction l with
  | nil => simp at h
  | cons a as ih =>
      by_cases hk : a.1 = k
      · exact ⟨a.2, by cases a; simp_all [alookup]⟩
      · cases a with
        | mk a1 a2 =>
            simp only [List.map_cons, List.mem_cons] at h
            rcases h with h | h
            · exact absurd h.symm hk
            · simpa [alookup, hk] using ih h

lemma alist_reconstruct (g : String → β) :
    ∀ {l : List (String × β)}, (∀ r ∈ l, g r.1 = r.2) →
      (l.map Prod.fst).map (fun k => (k, g k)) = l := by
  intro l
  induction l with
  | nil => intro _; rfl
  | cons a as ih =>
      intro hg
      obtain ⟨k, v⟩ := a
      have hh : g k = v := hg (k, v) (List.mem_cons_self _ _)
      simp only [List.map_cons, hh]
      exact congrArg _ (ih (fun r hr => hg r (List.mem_cons_of_mem _ hr)))

@[simp] lemma alookup_aupd_self (k : String) (v : β) (l : List (String × β)) :
    alookup k (aupd k v l) = some v := by
  induction l with
  | nil => simp [aupd, alookup]
  | cons a as ih =>
      cases a with
      | mk k' v' =>
          by_cases h : k' = k
          · subst h; simp [aupd, alookup]
          · simpa [aupd, alookup, h] using ih

lemma alookup_aupd_ne {k k' : String} (h : k' ≠ k) (v : β) :
    ∀ (l : List (String × β)), alookup k' (aupd k v l) = alookup k' l := by
  intro l
  induction l with
  | nil => simp [aupd, alookup_cons, Ne.symm h]
  | cons a as ih =>
      obtain ⟨k0, v0⟩ := a
      by_cases h0 : k0 = k
      · subst h0
        simp [aupd, alookup_cons, Ne.symm h]
      · simp [aupd, h0, alookup_cons, ih]

lemma aupd_keys {k : String} (v : β) :
    ∀ {l : List (String × β)}, k ∈ l.map Prod.fst →
      (aupd k v l).map Prod.fst = l.map Prod.fst := by
  intro l
  induction l with
  | nil => intro hk; simp at hk
  | cons a as ih =>
      intro hk
      obtain ⟨k0, v0⟩ := a
      by_cases h0 : k0 = k
      · subst h0; simp [aupd]
      · simp only [List.map_cons, List.mem_cons] at hk
        rcases hk with h | h
        · exact absurd h.symm h0
        · simp [aupd, h0, ih h]

lemma aupd_aupd (k : String) (v w : β) :
    ∀ (l : List (String × β)), aupd k v (aupd k w l) = aupd k v l := by
  intro l
  induction l with
  | nil => simp [aupd]
  | cons a as ih =>
      obtain ⟨k0, v0⟩ := a
      by_cases h0 : k0 = k
      · subst h0; simp [aupd]
      · simp [aupd, h0, ih]

lemma aupd_self : ∀ {l : List (String × β)} {k : String} {v : β},
    alookup k l = some v → aupd k v l = l := by
  intro l
  induction l with
  | nil => intro k v h; simp [alookup] at h
  | cons a as ih =>
      intro k v h
      obtain ⟨k0, v0⟩ := a
      by_cases h0 : k0 = k
      · subst h0
        rw [alookup_cons, if_pos rfl] at h
        injection h with h1
        subst h1
        simp [aupd]
      · simp only [alookup_cons, h0, if_false] at h
        simp [aupd, h0, ih h]

end AListLemmas

/-! ## Except-monad reduction lemmas -/

@[simp] lemma except_bind_ok {ε α γ : Type} (a : α) (f : α → Except ε γ) :
    (Except.ok a >>= f : Except ε γ) = f a := rfl

@[simp] lemma except_bind_err {ε α γ : Type} (e : ε) (f : α → Except ε γ) :
    (Except.error e >>= f : Except ε γ) = Except.error e := rfl

/-! ## Cell read/write lemmas -/

section CellLemmas

variable (d : List (String × List (String × Option Measurement)))
variable (m c : String) (v : Option Measurement)

lemma setCell_keys : (setCell d m c v).map Prod.fst = d.map Prod.fst := by
  induction d with
  | nil => rfl
  | cons a as ih =>
      obtain ⟨k, row⟩ := a
      by_cases hk : k = m
      · subst hk; simpa [setCell] using ih
      · simpa [setCell, hk] using ih

lemma alookup_setCell_self :
    alookup m (setCell d m c v) = (alookup m d).map (aupd c v) := by
  induction d with
  | nil => rfl
  | cons a as ih =>
      obtain ⟨k, row⟩ := a
      by_cases hk : k = m
      · subst hk; simp [setCell, alookup_cons]
      · simpa [setCell, hk, alookup_cons] using ih

lemma alookup_setCell_ne {m' : String} (h : m' ≠ m) :
    alookup m' (setCell d m c v) = alookup m' d := by
  induction d with
  | nil => rfl
  | cons a as ih =>
      obtain ⟨k, row⟩ := a
      simp only [setCell] at ih ⊢
      by_cases hk : k = m
      · subst hk
        simp [alookup_cons, Ne.symm h, ih]
      · simp [hk, alookup_cons, ih]

lemma dataGet_setCell_hit {row : List (String × Option Measurement)}
    (h : alookup m d = some row) : dataGet (setCell d m c v) m c = v := by
  simp [dataGet, alookup_setCell_self, h]

lemma dataGet_setCell_clear : dataGet (setCell d m c none) m c = none := by
  rcases h : alookup m d with _ | row
  · simp [dataGet, alookup_setCell_self, h]
  · simp [dataGet, alookup_setCell_self, h]

lemma dataGet_setCell_ne {m' c' : String} (h : m' ≠ m ∨ c' ≠ c) :
    dataGet (setCell d m c v) m' c' = dataGet d m' c' := by
  rcases h with h | h
  · simp [dataGet, alookup_setCell_ne d m c v h]
  · by_cases hm : m' = m
    · subst hm
      rcases hrow : alookup m' d with _ | row
      · simp [dataGet, alookup_setCell_self, hrow]
      · simp [dataGet, alookup_setCell_self, hrow, alookup_aupd_ne h]
    · simp [dataGet, alookup_setCell_ne d m c v hm]

lemma setCell_setCell (w : Option Measurement) :
    setCell (setCell d m c v) m c w = setCell d m c w := by
  induction d with
  | nil => rfl
  | cons a as ih =>
      obtain ⟨k, row⟩ := a
      by_cases hk : k = m
      · subst hk; simp [setCell, aupd_aupd] at ih ⊢; exact ih
      · simpa [setCell, hk] using ih

lemma setCell_id_of_not_mem :
    ∀ {d : List (String × List (String × Option Measurement))},
      m ∉ d.map Prod.fst → setCell d m c v = d := by
  intro d
  induction d with
  | nil => intro _; rfl
  | cons a as ih =>
      intro h
      obtain ⟨k, row⟩ := a
      simp only [List.map_cons, List.mem_cons] at h
      push_neg at h
      have hk : k ≠ m := fun he => h.1 he.symm
      simp only [setCell, List.map_cons] at ih ⊢
      simp [hk, ih h.2]

lemma setCell_restore : ∀ {d : List (String × List (String × Option Measurement))}
    {row : List (String × Option Measurement)} {w : Option Measurement},
    (d.map Prod.fst).Nodup → alookup m d = some row → alookup c row = some w →
    setCell d m c w = d := by
  intro d
  induction d with
  | nil => intro row w _ hm; simp [alookup] at hm
  | cons a as ih =>
      intro row w hnd hm hc
      obtain ⟨k, r0⟩ := a
      simp only [List.map_cons, List.nodup_cons] at hnd
      by_cases hk : k = m
      · subst hk
        rw [alookup_cons, if_pos rfl] at hm
        injection hm with hm
        subst hm
        have h2 : setCell as k c w = as := setCell_id_of_not_mem k c w hnd.1
        simp [setCell, aupd_self hc]
        exact h2
      · rw [alookup_cons, if_neg hk] at hm
        have h2 := ih hnd.2 hm hc
        simp only [setCell, List.map_cons] at h2 ⊢
        simp [hk, h2]

/-- Writing into an existing category of an existing month preserves the §3
data-model invariant. -/
lemma DataComplete_setCell {p : ProjectData} (hdc : DataComplete p)
    (hc : c ∈ p.categories) :
    DataComplete { p with data := setCell p.data m c v } := by
  obtain ⟨hkeys, hrows⟩ := hdc
  constructor
  · simpa [setCell_keys] using hkeys
  · intro r hr
    simp only [setCell, List.mem_map] at hr
    obtain ⟨r0, hr0, hfr⟩ := hr
    by_cases hk : r0.1 = m
    · rw [if_pos hk] at hfr
      have hkeys0 : r0.2.map Prod.fst = p.categories := hrows r0 hr0
      rw [← hfr]
      simpa [aupd_keys v (by rw [hkeys0]; exact hc)] using hkeys0
    · rw [if_neg hk] at hfr
      rw [← hfr]
      exact hrows r0 hr0

end CellLemmas

/-! ## C6: measurement shapes and the Euclidean distance -/

/-- C6.  A Measurement is one of exactly two shapes: the measuring click of
on_click records radius `dist(center, click)` — which equals the Euclidean
distance between the two points of the plane — together with the click's own
coordinates and `is_missing = false`; the missing marker of mark_missing has
radius zero, no click coordinates, and `is_missing = true`. -/
theorem c6_measurement_shapes (center click : ℝ × ℝ) :
    (clickMeasurement center click).radius_px = Dist.dist (toPlane center) (toPlane click)
    ∧ (clickMeasurement center click).click_xy = some click
    ∧ (clickMeasurement center click).is_missing = false
    ∧ missingMeasurement.radius_px = 0
    ∧ missingMeasurement.click_xy = none
    ∧ missingMeasurement.is_missing = true := by
  refine ⟨?_, rfl, rfl, rfl, rfl, rfl⟩
  show hypotDist center click = _
  rw [EuclideanSpace.dist_eq]
  unfold hypotDist toPlane
  congr 1
  rw [Fin.sum_univ_two]
  simp [Real.dist_eq, sq_abs]

/-! ## C9: stacked wedge radii of the re-plotter -/

lemma cumsumFrom_nonneg {row : List ℚ} (hrow : ∀ x ∈ row, 0 ≤ x) :
    ∀ {acc : ℚ}, 0 ≤ acc → ∀ y ∈ cumsumFrom acc row, 0 ≤ y := by
  induction row with
  | nil => intro acc _ y hy; simp [cumsumFrom] at hy
  | cons x xs ih =>
      intro acc hacc y hy
      have hx : 0 ≤ x := hrow x (List.mem_cons_self _ _)
      have hsum : 0 ≤ acc + x := add_nonneg hacc hx
      rcases List.mem_cons.mp hy with h | h
      · exact h ▸ hsum
      · exact ih (fun z hz => hrow z (List.mem_cons_of_mem _ hz)) hsum y h

lemma nonneg_cumTable {t : List (List ℚ)} (ht : NonnegTable t) :
    NonnegTable (cumTable t) := by
  intro row hrow x hx
  simp only [cumTable, List.mem_map] at hrow
  obtain ⟨r0, hr0, hr⟩ := hrow
  rw [← hr] at hx
  exact cumsumFrom_nonneg (ht r0 hr0) le_rfl x hx

lemma acc_le_foldl_max : ∀ (l : List ℚ) (acc : ℚ), acc ≤ l.foldl max acc := by
  intro l
  induction l with
  | nil => intro acc; exact le_rfl
  | cons a as ih =>
      intro acc
      exact le_trans (le_max_left acc a) (ih (max acc a))

lemma le_foldl_max {x : ℚ} : ∀ {l : List ℚ} (acc : ℚ), x ∈ l → x ≤ l.foldl max acc := by
  intro l
  induction l with
  | nil => intro acc h; cases h
  | cons a as ih =>
      intro acc h
      rcases List.mem_cons.mp h with h | h
      · subst h
        exact le_trans (le_max_right acc x) (acc_le_foldl_max as (max acc x))
      · exact ih (max acc a) h

lemma acc_le_tableMax_fold : ∀ (t : List (List ℚ)) (acc : ℚ),
    acc ≤ t.foldl (fun acc row => row.foldl max acc) acc := by
  intro t
  induction t with
  | nil => intro acc; exact le_rfl
  | cons r rs ih =>
      intro acc
      exact le_trans (acc_le_foldl_max r acc) (ih (r.foldl max acc))

lemma entry_le_tableMax {a : ℚ} :
    ∀ {t : List (List ℚ)} {row : List ℚ} (acc : ℚ), row ∈ t → a ∈ row →
      a ≤ t.foldl (fun acc row => row.foldl max acc) acc := by
  intro t
  induction t with
  | nil => intro row acc h; cases h
  | cons r rs ih =>
      intro row acc hrow ha
      rcases List.mem_cons.mp hrow with h | h
      · subst h
        exact le_trans (le_foldl_max acc ha) (acc_le_tableMax_fold rs (row.foldl max acc))
      · exact ih (r.foldl max acc) h ha

lemma entry_le_globalMax {a : ℚ} {tL tR : List (List ℚ)}
    (ha : EntryOf a (cumTable tL) ∨ EntryOf a (cumTable tR)) :
    a ≤ globalMaxOf tL tR := by
  rcases ha with ⟨row, hrow, hx⟩ | ⟨row, hrow, hx⟩
  · exact le_trans (entry_le_tableMax 0 hrow hx) (le_max_left _ _)
  · exact le_trans (entry_le_tableMax 0 hrow hx) (le_max_right _ _)

/-- C9.  Each month's per-category areas are stacked by cumulative sum; each
cumulative area `a` is rendered at boundary radius `sqrt(a / global_max)`,
with `global_max` the larger of the two datasets' maximum cumulative areas,
replaced by 1 when non-positive.  Every such radius lies in [0, 1], and the
rendered area is proportional to the squared radius: `radius² · global_max`
recovers the cumulative area exactly. -/
theorem c9_wedge_radius (tL tR : List (List ℚ)) (hL : NonnegTable tL)
    (hR : NonnegTable tR) (a : ℚ)
    (ha : EntryOf a (cumTable tL) ∨ EntryOf a (cumTable tR)) :
    0 ≤ wedgeRadius a (effectiveMax (globalMaxOf tL tR))
    ∧ wedgeRadius a (effectiveMax (globalMaxOf tL tR)) ≤ 1
    ∧ (wedgeRadius a (effectiveMax (globalMaxOf tL tR))) ^ 2
        * ((effectiveMax (globalMaxOf tL tR) : ℚ) : ℝ) = (a : ℝ) := by
  have ha0 : 0 ≤ a := by
    rcases ha with ⟨row, hrow, hx⟩ | ⟨row, hrow, hx⟩
    · exact nonneg_cumTable hL row hrow a hx
    · exact nonneg_cumTable hR row hrow a hx
  have hag : a ≤ globalMaxOf tL tR := entry_le_globalMax ha
  by_cases hg : globalMaxOf tL tR ≤ 0
  · have haz : a = 0 := le_antisymm (le_trans hag hg) ha0
    subst haz
    simp [wedgeRadius, effectiveMax, hg, Real.sqrt_zero]
  · have hgpos : 0 < globalMaxOf tL tR := lt_of_not_le hg
    have heff : effectiveMax (globalMaxOf tL tR) = globalMaxOf tL tR := by
      simp [effectiveMax, hg]
    rw [heff]
    have hgR : (0 : ℝ) < ((globalMaxOf tL tR : ℚ) : ℝ) := by exact_mod_cast hgpos
    have haR : (0 : ℝ) ≤ ((a : ℚ) : ℝ) := by exact_mod_cast ha0
    have hdiv0 : (0 : ℝ) ≤ (a : ℝ) / ((globalMaxOf tL tR : ℚ) : ℝ) :=
      div_nonneg haR (le_of_lt hgR)
    have hdiv1 : (a : ℝ) / ((globalMaxOf tL tR : ℚ) : ℝ) ≤ 1 := by
      rw [div_le_one hgR]
      exact_mod_cast hag
    refine ⟨Real.sqrt_nonneg _, Real.sqrt_le_one.mpr hdiv1, ?_⟩
    rw [wedgeRadius, Real.sq_sqrt hdiv0]
    field_simp

/-- Witness for C9 at the concrete tables [[1, 2]] and [[2]]: the cumulative
entry 1 of the left table against global max 3. -/
theorem c9_wedge_radius_witness :
    (NonnegTable [[1, 2]] ∧ NonnegTable [[2]]
      ∧ (EntryOf 1 (cumTable [[1, 2]]) ∨ EntryOf 1 (cumTable [[2]])))
    ∧ (0 ≤ wedgeRadius 1 (effectiveMax (globalMaxOf [[1, 2]] [[2]]))
        ∧ wedgeRadius 1 (effectiveMax (globalMaxOf [[1, 2]] [[2]])) ≤ 1
        ∧ (wedgeRadius 1 (effectiveMax (globalMaxOf [[1, 2]] [[2]]))) ^ 2
            * ((effectiveMax (globalMaxOf [[1, 2]] [[2]]) : ℚ) : ℝ) = ((1 : ℚ) : ℝ)) :=
  ⟨⟨by decide, by decide,
      Or.inl ⟨cumsum [1, 2], by simp [cumTable], by norm_num [cumsum, cumsumFrom]⟩⟩,
    c9_wedge_radius [[1, 2]] [[2]] (by decide) (by decide) 1
      (Or.inl ⟨cumsum [1, 2], by simp [cumTable], by norm_num [cumsum, cumsumFrom]⟩)⟩

/-! ## C2: snapshot loading and its fallback -/

/-- C2 (amended).  At application start, a snapshot whose contents fail to
parse, or whose conversion raises an exception, leaves the application with
an empty project — center unset, every (month, category) cell null.  A
snapshot that violates the schema without making the conversion raise is
loaded as-is, not replaced by an empty project.  The reload operation has no
fallback at all: on a snapshot whose contents fail to parse it raises instead
of leaving an empty project. -/
theorem c2_load_fallback :
    (∀ (fs : FS) (path ip dk : String) (ms cs : List String),
        fs path = some .invalid →
        loadProjectAtStart fs path ip dk ms cs = .ok (make_empty_project ip dk ms cs))
    ∧ (∀ (fs : FS) (path ip dk : String) (ms cs : List String) (j : Json) (e : String),
        fs path = some (.json j) → dict_to_project j = .error (.raises e) →
        loadProjectAtStart fs path ip dk ms cs = .ok (make_empty_project ip dk ms cs))
    ∧ (∀ (fs : FS) (path ip dk : String) (ms cs : List String) (j : Json)
        (p : ProjectData),
        fs path = some (.json j) → dict_to_project j = .ok p →
        loadProjectAtStart fs path ip dk ms cs = .ok p)
    ∧ (∀ (ip dk : String) (ms cs : List String),
        (make_empty_project ip dk ms cs).center_xy = none
        ∧ ∀ m ∈ ms, ∀ c ∈ cs, dataGet (make_empty_project ip dk ms cs).data m c = none)
    ∧ (∀ s : AppState, s.fs s.save_path = some .invalid →
        reloadOp s = .error (.raises "json.JSONDecodeError: invalid JSON")) := by
  refine ⟨?_, ?_, ?_, ?_, ?_⟩
  · intro fs path ip dk ms cs h
    unfold loadProjectAtStart
    rw [h]
    rfl
  · intro fs path ip dk ms cs j e h hconv
    unfold loadProjectAtStart
    rw [h]
    show (match (Except.ok j >>= dict_to_project : Except LoadErr ProjectData) with
          | Except.ok p => (Except.ok p : Except String ProjectData)
          | Except.error (LoadErr.raises _) => Except.ok (make_empty_project ip dk ms cs)
          | Except.error (LoadErr.unmodeled msg) => Except.error msg) = _
    rw [except_bind_ok, hconv]
  · intro fs path ip dk ms cs j p h hconv
    unfold loadProjectAtStart
    rw [h]
    show (match (Except.ok j >>= dict_to_project : Except LoadErr ProjectData) with
          | Except.ok p => (Except.ok p : Except String ProjectData)
          | Except.error (LoadErr.raises _) => Except.ok (make_empty_project ip dk ms cs)
          | Except.error (LoadErr.unmodeled msg) => Except.error msg) = _
    rw [except_bind_ok, hconv]
  · intro ip dk ms cs
    refine ⟨rfl, ?_⟩
    intro m hm c hc
    unfold make_empty_project dataGet
    simp only
    rw [alookup_map_self (fun m => cs.map (fun c => ((c, none) : String × Option Measurement))) hm]
    show (alookup c (cs.map (fun c => ((c, none) : String × Option Measurement)))).getD none = none
    rw [alookup_map_self (fun _ => (none : Option Measurement)) hc]
    rfl
  · intro s h
    unfold reloadOp
    rw [h]
    rfl

/-- Counterexample to C2 as stated, in both halves.  Reload: against a save
file with unparseable contents, reload raises instead of leaving an empty
project.  Start: the well-formed snapshot `jViol` does not match the §3
schema — its category list is not the fixed three-category list and its
month list is not the right diagram's twelve months — yet the startup load
keeps it as-is: the application is left with a project whose center is set
and whose cell holds a recorded measurement, not with an empty project. -/
theorem c2_fallback_cex :
    (sBad.fs sBad.save_path = some FileContent.invalid
      ∧ reloadOp sBad = .error (.raises "json.JSONDecodeError: invalid JSON"))
    ∧ (fsViol "progress_right.json" = some (.json jViol)
      ∧ loadProjectAtStart fsViol "progress_right.json" "deaths.jpg" "right"
          rightMonths CATEGORIES = .ok pViol
      ∧ pViol.center_xy = some (1, 2)
      ∧ dataGet pViol.data "1854-04" "bogus"
          = some { radius_px := 5, click_xy := some (3, 4), is_missing := false }
      ∧ pViol.categories ≠ CATEGORIES
      ∧ pViol.months ≠ rightMonths
      ∧ pViol ≠ make_empty_project "deaths.jpg" "right" rightMonths CATEGORIES) :=
  ⟨⟨rfl, rfl⟩, ⟨rfl, rfl, rfl, rfl, by decide, by decide, by decide⟩⟩

/-- Witness for C2 (amended): a concrete unparseable snapshot and a concrete
conversion that raises (a missing image_path key) both fall back at start,
the cleanly converting schema-violating snapshot is kept as loaded, and the
unparseable snapshot makes reload raise. -/
theorem c2_load_fallback_witness :
    (fsBad "progress_right.json" = some FileContent.invalid
      ∧ loadProjectAtStart fsBad "progress_right.json" "deaths.jpg" "right"
          ["1854-04"] CATEGORIES
        = .ok (make_empty_project "deaths.jpg" "right" ["1854-04"] CATEGORIES))
    ∧ (dict_to_project (Json.obj [])
        = .error (.raises "KeyError: image_path")
      ∧ loadProjectAtStart (fun _ => some (.json (.obj []))) "progress_right.json"
          "deaths.jpg" "right" ["1854-04"] CATEGORIES
        = .ok (make_empty_project "deaths.jpg" "right" ["1854-04"] CATEGORIES))
    ∧ (dict_to_project jViol = .ok pViol
      ∧ loadProjectAtStart fsViol "progress_right.json" "deaths.jpg" "right"
          rightMonths CATEGORIES = .ok pViol)
    ∧ (sBad.fs sBad.save_path = some FileContent.invalid
      ∧ reloadOp sBad = .error (.raises "json.JSONDecodeError: invalid JSON")) :=
  ⟨⟨rfl, c2_load_fallback.1 fsBad "progress_right.json" "deaths.jpg" "right"
      ["1854-04"] CATEGORIES rfl⟩,
    ⟨rfl, c2_load_fallback.2.1 (fun _ => some (.json (.obj []))) "progress_right.json"
      "deaths.jpg" "right" ["1854-04"] CATEGORIES (.obj []) "KeyError: image_path"
      rfl rfl⟩,
    ⟨rfl, c2_load_fallback.2.2.1 fsViol "progress_right.json" "deaths.jpg" "right"
      rightMonths CATEGORIES jViol pViol rfl rfl⟩,
    ⟨rfl, c2_load_fallback.2.2.2.2 sBad rfl⟩⟩

/-! ## C3: every mutation persists the project atomically -/

lemma path_ne_tmp (p : String) : p ≠ p ++ ".tmp" := by
  intro h
  have hl := congrArg String.length h
  rw [String.length_append] at hl
  have h4 : (".tmp" : String).length = 4 := rfl
  rw [h4] at hl
  omega

lemma safe_write_json_at_path (fs : FS) (p : String) (payload : Json) :
    safe_write_json fs p payload p = some (.json payload) := by
  unfold safe_write_json fsReplace fsWrite
  simp

lemma safe_write_json_other (fs : FS) (p : String) (payload : Json) {q : String}
    (h1 : q ≠ p) (h2 : q ≠ p ++ ".tmp") :
    safe_write_json fs p payload q = fs q := by
  unfold safe_write_json fsReplace fsWrite
  simp [h1, h2]

/-- The intermediate step of safe_write_json — dumping the payload to the
temporary file — leaves the save file itself untouched. -/
lemma fsWrite_tmp_preserves (fs : FS) (p : String) (content : FileContent) :
    fsWrite fs (p ++ ".tmp") content p = fs p := by
  unfold fsWrite
  simp [path_ne_tmp p]

lemma saveOp_good (t : AppState) :
    (saveOp t).fs t.save_path = some (.json (project_to_dict (saveOp t).project))
    ∧ ∀ q, q ≠ t.save_path → q ≠ t.save_path ++ ".tmp" → (saveOp t).fs q = t.fs q := by
  constructor
  · exact safe_write_json_at_path t.fs t.save_path (project_to_dict t.project)
  · intro q h1 h2
    exact safe_write_json_other t.fs t.save_path (project_to_dict t.project) h1 h2

lemma nextItem_fs (t : AppState) : (nextItem t).fs = t.fs := by
  unfold nextItem; split
  · rfl
  · split <;> rfl

lemma nextItem_project (t : AppState) : (nextItem t).project = t.project := by
  unfold nextItem; split
  · rfl
  · split <;> rfl

lemma nextItem_save_path (t : AppState) : (nextItem t).save_path = t.save_path := by
  unfold nextItem; split
  · rfl
  · split <;> rfl

lemma nextItem_undo_stack (t : AppState) : (nextItem t).undo_stack = t.undo_stack := by
  unfold nextItem; split
  · rfl
  · split <;> rfl

lemma currentMonthCat_eq_some {s : AppState} (h : InRange s) :
    ∃ month cat, currentMonthCat s = some (month, cat)
      ∧ s.project.months.get? s.month_i = some month
      ∧ s.project.categories.get? s.cat_i = some cat := by
  obtain ⟨h1, h2⟩ := h
  have hm := List.get?_eq_get h1
  have hc := List.get?_eq_get h2
  refine ⟨_, _, ?_, hm, hc⟩
  unfold currentMonthCat
  rw [hm, hc]

lemma findIdxP_mem_some {α : Type} [DecidableEq α] {a : α} :
    ∀ {l : List α}, a ∈ l → ∃ i, findIdxP (fun x => x = a) l = some i := by
  intro l
  induction l with
  | nil => intro h; cases h
  | cons b bs ih =>
      intro h
      by_cases hb : b = a
      · exact ⟨0, by simp [findIdxP, hb]⟩
      · rcases List.mem_cons.mp h with h1 | h1
        · exact absurd h1.symm hb
        · obtain ⟨i, hi⟩ := ih h1
          exact ⟨i + 1, by simp [findIdxP, hb, hi]⟩

/-- C3.  Every project-state mutation that goes through (set center, record
measurement, mark missing, undo, clear all, remeasure) ends by persisting the
full project: afterwards the save path holds exactly the complete JSON
serialization of the mutated project, no file other than the save file and
its temporary sibling is touched, and the write is write-to-temp-then-rename:
the step that dumps the payload at `path + ".tmp"` leaves the save file
untouched, so the save file is only ever replaced whole, never deleted. -/
theorem c3_mutations_persist (hypot : ℚ × ℚ → ℚ × ℚ → ℚ) (μ : Mutation)
    (s : AppState) (h : mutGuard μ s = true) :
    ((applyMutation hypot μ s).fs s.save_path
        = some (.json (project_to_dict (applyMutation hypot μ s).project))
    ∧ ∀ q, q ≠ s.save_path → q ≠ s.save_path ++ ".tmp" →
        (applyMutation hypot μ s).fs q = s.fs q)
    ∧ ∀ content : FileContent,
        fsWrite s.fs (s.save_path ++ ".tmp") content s.save_path = s.fs s.save_path := by
  refine ⟨?_, fun content => fsWrite_tmp_preserves s.fs s.save_path content⟩
  cases μ with
  | setCenter x y =>
      have hsc : s.setting_center = true := by simpa [mutGuard] using h
      simp only [applyMutation, onClick, hsc, if_true]
      exact saveOp_good _
  | record x y =>
      rw [mutGuard] at h
      simp only [Bool.and_eq_true, Bool.not_eq_true', decide_eq_true_eq] at h
      obtain ⟨⟨hsc, hcen⟩, hir⟩ := h
      obtain ⟨ctr, hctr⟩ := Option.isSome_iff_exists.mp hcen
      obtain ⟨month, cat, hcur, _, _⟩ := currentMonthCat_eq_some hir
      simp only [applyMutation, onClick, hsc, Bool.false_eq_true, if_false, hctr, hcur]
      constructor
      · rw [nextItem_fs, nextItem_project]
        exact (saveOp_good _).1
      · intro q h1 h2
        rw [nextItem_fs]
        exact (saveOp_good _).2 q h1 h2
  | markMissing =>
      rw [mutGuard] at h
      simp only [Bool.and_eq_true, decide_eq_true_eq] at h
      obtain ⟨hcen, hir⟩ := h
      obtain ⟨ctr, hctr⟩ := Option.isSome_iff_exists.mp hcen
      obtain ⟨month, cat, hcur, _, _⟩ := currentMonthCat_eq_some hir
      simp only [applyMutation, markMissingOp, hctr, hcur]
      constructor
      · rw [nextItem_fs, nextItem_project]
        exact (saveOp_good _).1
      · intro q h1 h2
        rw [nextItem_fs]
        exact (saveOp_good _).2 q h1 h2
  | undoStep =>
      rcases hstack : s.undo_stack with _ | ⟨⟨month, cat, prev⟩, rest⟩
      · rw [mutGuard, hstack] at h
        cases h
      · rw [mutGuard, hstack] at h
        simp only [Bool.and_eq_true, decide_eq_true_eq] at h
        obtain ⟨hm, hc⟩ := h
        obtain ⟨mi, hmi⟩ := findIdxP_mem_some hm
        obtain ⟨ci, hci⟩ := findIdxP_mem_some hc
        simp only [applyMutation, undoOp, hstack, hmi, hci]
        exact saveOp_good _
  | clearAllStep =>
      simp only [applyMutation, clearAllOp, if_true]
      exact saveOp_good _
  | remeasureStep =>
      rw [mutGuard] at h
      simp only [Bool.and_eq_true, decide_eq_true_eq] at h
      obtain ⟨⟨hcen, hir⟩, hcell⟩ := h
      obtain ⟨ctr, hctr⟩ := Option.isSome_iff_exists.mp hcen
      obtain ⟨month, cat, hcur, _, _⟩ := currentMonthCat_eq_some hir
      rw [hcur] at hcell
      obtain ⟨prev, hprev⟩ := Option.isSome_iff_exists.mp hcell
      simp only [applyMutation, remeasureOp, hctr, hcur, hprev]
      exact saveOp_good _

/-- Witness for C3: marking the current cell missing in the sample state
persists the serialized project at the save path. -/
theorem c3_mutations_persist_witness :
    mutGuard Mutation.markMissing sSample = true
    ∧ (((applyMutation (fun _ _ => 0) Mutation.markMissing sSample).fs sSample.save_path
        = some (.json (project_to_dict
            (applyMutation (fun _ _ => 0) Mutation.markMissing sSample).project))
      ∧ ∀ q, q ≠ sSample.save_path → q ≠ sSample.save_path ++ ".tmp" →
          (applyMutation (fun _ _ => 0) Mutation.markMissing sSample).fs q = sSample.fs q)
    ∧ ∀ content : FileContent,
        fsWrite sSample.fs (sSample.save_path ++ ".tmp") content sSample.save_path
          = sSample.fs sSample.save_path) :=
  ⟨by decide, c3_mutations_persist (fun _ _ => 0) Mutation.markMissing sSample (by decide)⟩

/-! ## C10: clear-all -/

lemma dataGet_none_after_clear_write
    {d : List (String × List (String × Option Measurement))} {m c : String}
    (m' c' : String) (h : dataGet d m c = none) :
    dataGet (setCell d m' c' none) m c = none := by
  by_cases hm : m = m'
  · by_cases hc : c = c'
    · subst hm; subst hc; exact dataGet_setCell_clear d m c
    · rw [dataGet_setCell_ne d m' c' none (Or.inr hc)]; exact h
  · rw [dataGet_setCell_ne d m' c' none (Or.inl hm)]; exact h

lemma inner_clear_preserves_none (m' : String) :
    ∀ (cats : List String) (d : List (String × List (String × Option Measurement)))
      {m c : String}, dataGet d m c = none →
      dataGet (cats.foldl (fun d' c' => setCell d' m' c' none) d) m c = none := by
  intro cats
  induction cats with
  | nil => intro d m c h; exact h
  | cons c0 cs ih =>
      intro d m c h
      exact ih _ (dataGet_none_after_clear_write m' c0 h)

lemma inner_clear_hits (m0 : String) :
    ∀ (cats : List String) (d : List (String × List (String × Option Measurement)))
      {c : String}, c ∈ cats →
      dataGet (cats.foldl (fun d' c' => setCell d' m0 c' none) d) m0 c = none := by
  intro cats
  induction cats with
  | nil => intro d c h; cases h
  | cons c0 cs ih =>
      intro d c h
      rcases List.mem_cons.mp h with h1 | h1
      · subst h1
        exact inner_clear_preserves_none m0 cs _ (dataGet_setCell_clear d m0 c)
      · exact ih _ h1

lemma clearData_preserves_none (cats : List String) :
    ∀ (months : List String) (d : List (String × List (String × Option Measurement)))
      {m c : String}, dataGet d m c = none → dataGet (clearData months cats d) m c = none := by
  intro months
  induction months with
  | nil => intro d m c h; exact h
  | cons m0 ms ih =>
      intro d m c h
      exact ih _ (inner_clear_preserves_none m0 cats d h)

lemma clearData_all_none {months cats : List String}
    {d : List (String × List (String × Option Measurement))} {m c : String}
    (hm : m ∈ months) (hc : c ∈ cats) :
    dataGet (clearData months cats d) m c = none := by
  induction months generalizing d with
  | nil => cases hm
  | cons m0 ms ih =>
      rcases List.mem_cons.mp hm with h1 | h1
      · subst h1
        exact clearData_preserves_none cats ms _ (inner_clear_hits m cats d hc)
      · exact ih h1

/-- C10.  Clearing all measurements (once the dialog is confirmed) nulls
every (month, category) cell, empties the undo stack, and resets the cursor
to the first month and category, while the center point, image path, diagram
key, month list and category list are left unchanged. -/
theorem c10_clear_all (s : AppState) :
    (∀ m ∈ s.project.months, ∀ c ∈ s.project.categories,
        dataGet (clearAllOp true s).project.data m c = none)
    ∧ (clearAllOp true s).undo_stack = []
    ∧ (clearAllOp true s).month_i = 0
    ∧ (clearAllOp true s).cat_i = 0
    ∧ (clearAllOp true s).project.center_xy = s.project.center_xy
    ∧ (clearAllOp true s).project.image_path = s.project.image_path
    ∧ (clearAllOp true s).project.diagram_key = s.project.diagram_key
    ∧ (clearAllOp true s).project.months = s.project.months
    ∧ (clearAllOp true s).project.categories = s.project.categories := by
  refine ⟨?_, rfl, rfl, rfl, rfl, rfl, rfl, rfl, rfl⟩
  intro m hm c hc
  show dataGet (clearData s.project.months s.project.categories s.project.data) m c = none
  exact clearData_all_none hm hc

/-! ## C8: jump to the first unfilled cell -/

lemma findIdxP_none_spec {α : Type} {p : α → Bool} :
    ∀ {l : List α}, findIdxP p l = none → ∀ a ∈ l, p a = false := by
  intro l
  induction l with
  | nil => intro _ a ha; cases ha
  | cons b bs ih =>
      intro h a ha
      by_cases hb : p b
      · simp [findIdxP, hb] at h
      · simp only [findIdxP, hb, if_false, Bool.false_eq_true] at h
        rcases List.mem_cons.mp ha with h1 | h1
        · subst h1; exact Bool.eq_false_iff.mpr (by simpa using hb)
        · exact ih (by simpa using h) a h1

lemma findIdxP_some_spec {α : Type} {p : α → Bool} :
    ∀ {l : List α} {i : ℕ}, findIdxP p l = some i →
      (∃ a, l.get? i = some a ∧ p a = true)
      ∧ ∀ j, j < i → ∀ b, l.get? j = some b → p b = false := by
  intro l
  induction l with
  | nil => intro i h; cases h
  | cons b bs ih =>
      intro i h
      by_cases hb : p b
      · simp only [findIdxP, hb, if_true] at h
        injection h with h
        subst h
        exact ⟨⟨b, rfl, hb⟩, fun j hj => by omega⟩
      · simp only [findIdxP, hb, if_false, Bool.false_eq_true, Option.map_eq_some'] at h
        obtain ⟨i0, hi0, hi⟩ := h
        subst hi
        obtain ⟨⟨a, ha1, ha2⟩, hmin⟩ := ih hi0
        refine ⟨⟨a, by simpa using ha1, ha2⟩, ?_⟩
        intro j hj c hc
        cases j with
        | zero =>
            injection hc with hc
            subst hc
            exact Bool.eq_false_iff.mpr (by simpa using hb)
        | succ j0 =>
            exact hmin j0 (by omega) c (by simpa using hc)

lemma firstUnfilled_none_spec
    {data : List (String × List (String × Option Measurement))} {cats : List String} :
    ∀ {months : List String}, firstUnfilled data cats months = none →
      ∀ (mi ci : ℕ) (m c : String), months.get? mi = some m → cats.get? ci = some c →
        dataGet data m c ≠ none := by
  intro months
  induction months with
  | nil => intro _ mi ci m c hm _ _; simp at hm
  | cons m0 ms ih =>
      intro h mi ci m c hm hc hnull
      rcases hin : findIdxP (fun c => (dataGet data m0 c).isNone) cats with _ | ci0
      · simp only [firstUnfilled, hin] at h
        cases mi with
        | zero =>
            injection hm with hm
            subst hm
            have hcmem : c ∈ cats := by
              have := List.get?_mem hc
              exact this
            have := findIdxP_none_spec hin c hcmem
            rw [hnull] at this
            simp at this
        | succ mi0 =>
            exact ih (by simpa using h) mi0 ci m c (by simpa using hm) hc hnull
      · simp [firstUnfilled, hin] at h

lemma firstUnfilled_some_spec
    {data : List (String × List (String × Option Measurement))} {cats : List String} :
    ∀ {months : List String} {mi ci : ℕ},
      firstUnfilled data cats months = some (mi, ci) →
      (∃ m c, months.get? mi = some m ∧ cats.get? ci = some c ∧ dataGet data m c = none)
      ∧ ∀ (mj cj : ℕ) (m c : String), months.get? mj = some m → cats.get? cj = some c →
          dataGet data m c = none → lexLe (mi, ci) (mj, cj) := by
  intro months
  induction months with
  | nil => intro mi ci h; cases h
  | cons m0 ms ih =>
      intro mi ci h
      rcases hin : findIdxP (fun c => (dataGet data m0 c).isNone) cats with _ | ci0
      · simp only [firstUnfilled, hin, Option.map_eq_some'] at h
        obtain ⟨⟨mi', ci'⟩, hrec, hpr⟩ := h
        injection hpr with h1 h2
        subst h1
        subst h2
        obtain ⟨⟨m, c, hm, hc, hnull⟩, hmin⟩ := ih hrec
        refine ⟨⟨m, c, by simpa using hm, hc, hnull⟩, ?_⟩
        intro mj cj m' c' hmj hcj hnull'
        cases mj with
        | zero =>
            injection hmj with hmj
            subst hmj
            have hcmem : c' ∈ cats := List.get?_mem hcj
            have := findIdxP_none_spec hin c' hcmem
            rw [hnull'] at this
            simp at this
        | succ mj0 =>
            have := hmin mj0 cj m' c' (by simpa using hmj) hcj hnull'
            rcases this with h1 | ⟨h1, h2⟩
            · exact Or.inl (by omega)
            · exact Or.inr (by omega)
      · simp only [firstUnfilled, hin] at h
        injection h with h
        injection h with h1 h2
        subst h1
        subst h2
        obtain ⟨⟨c, hc1, hc2⟩, hcmin⟩ := findIdxP_some_spec hin
        refine ⟨⟨m0, c, rfl, hc1, by simpa using hc2⟩, ?_⟩
        intro mj cj m' c' hmj hcj hnull'
        cases mj with
        | zero =>
            injection hmj with hmj
            subst hmj
            right
            refine ⟨rfl, ?_⟩
            by_contra hlt
            push_neg at hlt
            have := hcmin cj (by omega) c' hcj
            rw [hnull'] at this
            simp at this
        | succ mj0 => exact Or.inl (by omega)

/-- C8.  Jump-to-first-unfilled moves the cursor to the earliest null cell in
month-major, category-minor order (all categories of a month are scanned
before the next month); when no cell is null, it settles on the last
(month, category) cell. -/
theorem c8_jump_to_unfilled (s : AppState)
    (hm : s.project.months ≠ []) (hc : s.project.categories ≠ []) :
    ((∃ mi ci, CellNullAt s.project mi ci) →
        CellNullAt s.project (jumpToUnfilledOp s).month_i (jumpToUnfilledOp s).cat_i
        ∧ ∀ mi ci, CellNullAt s.project mi ci →
            lexLe ((jumpToUnfilledOp s).month_i, (jumpToUnfilledOp s).cat_i) (mi, ci))
    ∧ ((¬ ∃ mi ci, CellNullAt s.project mi ci) →
        (jumpToUnfilledOp s).month_i = s.project.months.length - 1
        ∧ (jumpToUnfilledOp s).cat_i = s.project.categories.length - 1) := by
  rcases hfu : firstUnfilled s.project.data s.project.categories s.project.months
    with _ | ⟨mi, ci⟩
  · constructor
    · intro hex
      exfalso
      obtain ⟨mi, ci, m, c, hgm, hgc, hnull⟩ := hex
      exact firstUnfilled_none_spec hfu mi ci m c hgm hgc hnull
    · intro _
      unfold jumpToUnfilledOp
      rw [hfu]
      exact ⟨rfl, rfl⟩
  · obtain ⟨⟨m, c, hgm, hgc, hnull⟩, hmin⟩ := firstUnfilled_some_spec hfu
    constructor
    · intro _
      have hcur : (jumpToUnfilledOp s).month_i = mi ∧ (jumpToUnfilledOp s).cat_i = ci := by
        unfold jumpToUnfilledOp
        rw [hfu]
        exact ⟨rfl, rfl⟩
      rw [hcur.1, hcur.2]
      exact ⟨⟨m, c, hgm, hgc, hnull⟩,
        fun mj cj hcell => by
          obtain ⟨m', c', hgm', hgc', hnull'⟩ := hcell
          exact hmin mj cj m' c' hgm' hgc' hnull'⟩
    · intro hno
      exfalso
      exact hno ⟨mi, ci, m, c, hgm, hgc, hnull⟩

/-- Witness for C8 at the sample state, whose first unfilled cell is the
first category of the second month. -/
theorem c8_jump_to_unfilled_witness :
    (sSample.project.months ≠ [] ∧ sSample.project.categories ≠ [])
    ∧ (((∃ mi ci, CellNullAt sSample.project mi ci) →
        CellNullAt sSample.project (jumpToUnfilledOp sSample).month_i
            (jumpToUnfilledOp sSample).cat_i
        ∧ ∀ mi ci, CellNullAt sSample.project mi ci →
            lexLe ((jumpToUnfilledOp sSample).month_i, (jumpToUnfilledOp sSample).cat_i)
              (mi, ci))
    ∧ ((¬ ∃ mi ci, CellNullAt sSample.project mi ci) →
        (jumpToUnfilledOp sSample).month_i = sSample.project.months.length - 1
        ∧ (jumpToUnfilledOp sSample).cat_i = sSample.project.categories.length - 1)) :=
  ⟨⟨by decide, by decide⟩,
    c8_jump_to_unfilled sSample (by decide) (by decide)⟩

/-! ## C4: recording then undoing restores the prior value -/

lemma saveOp_project (t : AppState) : (saveOp t).project = t.project := rfl

lemma saveOp_undo_stack (t : AppState) : (saveOp t).undo_stack = t.undo_stack := rfl

lemma alookup_mem {β : Type} {k : String} {v : β} :
    ∀ {l : List (String × β)}, alookup k l = some v → (k, v) ∈ l := by
  intro l
  induction l with
  | nil => intro h; cases h
  | cons a as ih =>
      intro h
      obtain ⟨k0, v0⟩ := a
      by_cases h0 : k0 = k
      · subst h0
        rw [alookup_cons, if_pos rfl] at h
        injection h with h
        subst h
        exact List.mem_cons_self _ _
      · rw [alookup_cons, if_neg h0] at h
        exact List.mem_cons_of_mem _ (ih h)

lemma findIdxP_nodup_get {α : Type} [DecidableEq α] :
    ∀ {l : List α} {i : ℕ} {a : α}, l.Nodup → l.get? i = some a →
      findIdxP (fun x => x = a) l = some i := by
  intro l
  induction l with
  | nil => intro i a _ h; cases h
  | cons b bs ih =>
      intro i a hnd h
      obtain ⟨hb, hnd'⟩ := List.nodup_cons.mp hnd
      cases i with
      | zero =>
          injection h with h
          subst h
          simp [findIdxP]
      | succ j =>
          have hmem : a ∈ bs := List.get?_mem (by simpa using h)
          have hne : b ≠ a := fun he => hb (he ▸ hmem)
          simp [findIdxP, hne, ih hnd' (by simpa using h)]

/-- Unfolding undo on a state whose stack and cursor lookups are known. -/
lemma undoOp_eq (t : AppState) {month cat : String} {prev : Option Measurement}
    {rest : List (String × String × Option Measurement)} {mi ci : ℕ}
    (hstack : t.undo_stack = (month, cat, prev) :: rest)
    (hmi : findIdxP (fun m => m = month) t.project.months = some mi)
    (hci : findIdxP (fun c => c = cat) t.project.categories = some ci) :
    undoOp t = saveOp { t with
      undo_stack := rest,
      project := { t.project with data := setCell t.project.data month cat prev },
      month_i := mi,
      cat_i := ci } := by
  unfold undoOp
  simp only [hstack, hmi, hci]

lemma nextSave_undo_stack (t : AppState) :
    (nextItem (saveOp t)).undo_stack = t.undo_stack := by
  rw [nextItem_undo_stack]
  rfl

lemma nextSave_project (t : AppState) :
    (nextItem (saveOp t)).project = t.project := by
  rw [nextItem_project]
  rfl

/-- The heart of C4: after the measuring click pushed
(month, cat, previous-value) and overwrote the cell, one undo pops exactly
that entry, restores the cell (hence the whole project), and returns the
cursor to the cell. -/
lemma record_then_undo_general (s : AppState) (month cat : String) (meas : Measurement)
    (hm : s.project.months.get? s.month_i = some month)
    (hc : s.project.categories.get? s.cat_i = some cat)
    (hdc : DataComplete s.project)
    (hndm : s.project.months.Nodup)
    (hndc : s.project.categories.Nodup) :
    (undoOp (nextItem (saveOp { s with
        undo_stack := (month, cat, dataGet s.project.data month cat) :: s.undo_stack,
        project := { s.project with
          data := setCell s.project.data month cat (some meas) } }))).project = s.project
    ∧ (undoOp (nextItem (saveOp { s with
        undo_stack := (month, cat, dataGet s.project.data month cat) :: s.undo_stack,
        project := { s.project with
          data := setCell s.project.data month cat (some meas) } }))).undo_stack
        = s.undo_stack
    ∧ (undoOp (nextItem (saveOp { s with
        undo_stack := (month, cat, dataGet s.project.data month cat) :: s.undo_stack,
        project := { s.project with
          data := setCell s.project.data month cat (some meas) } }))).month_i = s.month_i
    ∧ (undoOp (nextItem (saveOp { s with
        undo_stack := (month, cat, dataGet s.project.data month cat) :: s.undo_stack,
        project := { s.project with
          data := setCell s.project.data month cat (some meas) } }))).cat_i = s.cat_i := by
  have hmonthmem : month ∈ s.project.months := List.get?_mem hm
  have hcatmem : cat ∈ s.project.categories := List.get?_mem hc
  obtain ⟨row, hrow⟩ := alookup_isSome_of_mem_keys
    (show month ∈ s.project.data.map Prod.fst by rw [hdc.1]; exact hmonthmem)
  have hrowmem : (month, row) ∈ s.project.data := alookup_mem hrow
  obtain ⟨w, hw⟩ := alookup_isSome_of_mem_keys
    (show cat ∈ row.map Prod.fst by rw [hdc.2 _ hrowmem]; exact hcatmem)
  have hprev : dataGet s.project.data month cat = w := by
    unfold dataGet
    rw [hrow]
    show (alookup cat row).getD none = w
    rw [hw]
    rfl
  have hkeysnd : (s.project.data.map Prod.fst).Nodup := by rw [hdc.1]; exact hndm
  have hrestore : setCell s.project.data month cat w = s.project.data :=
    setCell_restore month cat hkeysnd hrow hw
  have hstk := nextSave_undo_stack { s with
    undo_stack := (month, cat, dataGet s.project.data month cat) :: s.undo_stack,
    project := { s.project with data := setCell s.project.data month cat (some meas) } }
  have hproj := nextSave_project { s with
    undo_stack := (month, cat, dataGet s.project.data month cat) :: s.undo_stack,
    project := { s.project with data := setCell s.project.data month cat (some meas) } }
  rw [undoOp_eq _ hstk (by rw [hproj]; exact findIdxP_nodup_get hndm hm)
    (by rw [hproj]; exact findIdxP_nodup_get hndc hc)]
  refine ⟨?_, rfl, rfl, rfl⟩
  show ({ (nextItem (saveOp _)).project with
    data := setCell (nextItem (saveOp _)).project.data month cat
      (dataGet s.project.data month cat) } : ProjectData) = s.project
  rw [hproj]
  show ({ s.project with
    data := setCell (setCell s.project.data month cat (some meas)) month cat
      (dataGet s.project.data month cat) } : ProjectData) = s.project
  rw [setCell_setCell, hprev, hrestore]

/-- C4.  In measuring mode, an accepted click on the current cell pushes
(month, category, previous-value) on the undo stack and records a
measurement; one undo then pops exactly that entry and restores the cell to
its prior value — afterwards the project, the undo stack and the cursor all
equal their values before the click, so each undo reverses exactly one
recorded mutation. -/
theorem c4_record_then_undo (hypot : ℚ × ℚ → ℚ × ℚ → ℚ) (x y : ℚ) (s : AppState)
    (hmode : s.setting_center = false)
    (hcen : s.project.center_xy.isSome = true)
    (hir : InRange s)
    (hdc : DataComplete s.project)
    (hndm : s.project.months.Nodup)
    (hndc : s.project.categories.Nodup) :
    (undoOp (onClick hypot x y s)).project = s.project
    ∧ (undoOp (onClick hypot x y s)).undo_stack = s.undo_stack
    ∧ (undoOp (onClick hypot x y s)).month_i = s.month_i
    ∧ (undoOp (onClick hypot x y s)).cat_i = s.cat_i := by
  obtain ⟨ctr, hctr⟩ := Option.isSome_iff_exists.mp hcen
  obtain ⟨month, cat, hcur, hm, hc⟩ := currentMonthCat_eq_some hir
  have hred : onClick hypot x y s
      = nextItem (saveOp { s with
          undo_stack := (month, cat, dataGet s.project.data month cat) :: s.undo_stack,
          project := { s.project with
            data := setCell s.project.data month cat
              (some { radius_px := hypot ctr (x, y), click_xy := some (x, y),
                      is_missing := false }) } }) := by
    simp only [onClick, hmode, Bool.false_eq_true, if_false, hctr, hcur]
  rw [hred]
  exact record_then_undo_general s month cat
    { radius_px := hypot ctr (x, y), click_xy := some (x, y), is_missing := false }
    hm hc hdc hndm hndc

/-- Witness for C4 at the sample state: a click measured at (7, 8) with an
arbitrary rounding of the distance, then undone. -/
theorem c4_record_then_undo_witness :
    (sSample.setting_center = false
      ∧ sSample.project.center_xy.isSome = true
      ∧ InRange sSample
      ∧ DataComplete sSample.project
      ∧ sSample.project.months.Nodup
      ∧ sSample.project.categories.Nodup)
    ∧ ((undoOp (onClick (fun _ _ => 0) 7 8 sSample)).project = sSample.project
      ∧ (undoOp (onClick (fun _ _ => 0) 7 8 sSample)).undo_stack = sSample.undo_stack
      ∧ (undoOp (onClick (fun _ _ => 0) 7 8 sSample)).month_i = sSample.month_i
      ∧ (undoOp (onClick (fun _ _ => 0) 7 8 sSample)).cat_i = sSample.cat_i) :=
  ⟨⟨rfl, rfl, by decide, by decide, by decide, by decide⟩,
    c4_record_then_undo (fun _ _ => 0) 7 8 sSample rfl rfl (by decide) (by decide)
      (by decide) (by decide)⟩

/-! ## C7: the data-model invariant -/

lemma bind_eq_ok {ε α γ : Type} {x : Except ε α} {f : α → Except ε γ} {b : γ}
    (h : (x >>= f) = .ok b) : ∃ a, x = .ok a ∧ f a = .ok b := by
  cases x with
  | ok a => exact ⟨a, rfl, h⟩
  | error e => simp at h

lemma keys_setCell_of {d : List (String × List (String × Option Measurement))}
    {ms : List String} (m c : String) (v : Option Measurement)
    (h : d.map Prod.fst = ms) : (setCell d m c v).map Prod.fst = ms := by
  rw [setCell_keys]; exact h

lemma rows_setCell_of {d : List (String × List (String × Option Measurement))}
    {cs : List String} (m : String) {c : String} (v : Option Measurement)
    (h2 : ∀ r ∈ d, r.2.map Prod.fst = cs) (hc : c ∈ cs) :
    ∀ r ∈ setCell d m c v, r.2.map Prod.fst = cs := by
  intro r hr
  simp only [setCell, List.mem_map] at hr
  obtain ⟨r0, hr0, hfr⟩ := hr
  by_cases hk : r0.1 = m
  · rw [if_pos hk] at hfr
    have hkeys0 : r0.2.map Prod.fst = cs := h2 r0 hr0
    rw [← hfr]
    simpa [aupd_keys v (by rw [hkeys0]; exact hc)] using hkeys0
  · rw [if_neg hk] at hfr
    rw [← hfr]
    exact h2 r0 hr0

lemma DCdata_setCell {ms cs : List String}
    {d : List (String × List (String × Option Measurement))}
    (m : String) {c : String} (v : Option Measurement)
    (h : DCdata ms cs d) (hc : c ∈ cs) : DCdata ms cs (setCell d m c v) :=
  ⟨keys_setCell_of m c v h.1, rows_setCell_of m v h.2 hc⟩

lemma DCdata_clear_fold {ms cs : List String} (m' : String) :
    ∀ (l : List String), (∀ x ∈ l, x ∈ cs) →
      ∀ {d : List (String × List (String × Option Measurement))}, DCdata ms cs d →
        DCdata ms cs (l.foldl (fun d' c' => setCell d' m' c' none) d) := by
  intro l
  induction l with
  | nil => intro _ d h; exact h
  | cons c0 l' ih =>
      intro hsub d h
      exact ih (fun x hx => hsub x (List.mem_cons_of_mem _ hx))
        (DCdata_setCell m' none h (hsub c0 (List.mem_cons_self _ _)))

lemma DCdata_clearData {ms cs : List String} {cats : List String}
    (hsub : ∀ x ∈ cats, x ∈ cs) :
    ∀ (months' : List String)
      {d : List (String × List (String × Option Measurement))}, DCdata ms cs d →
      DCdata ms cs (clearData months' cats d) := by
  intro months'
  induction months' with
  | nil => intro d h; exact h
  | cons m0 ms' ih =>
      intro d h
      exact ih (DCdata_clear_fold m0 cats hsub h)

lemma currentMonthCat_inv {s : AppState} {month cat : String}
    (h : currentMonthCat s = some (month, cat)) :
    s.project.months.get? s.month_i = some month
    ∧ s.project.categories.get? s.cat_i = some cat := by
  unfold currentMonthCat at h
  rcases hm : s.project.months.get? s.month_i with _ | m0 <;> rw [hm] at h
  · cases h
  · rcases hc : s.project.categories.get? s.cat_i with _ | c0 <;> rw [hc] at h
    · cases h
    · injection h with h
      injection h with h1 h2
      subst h1
      subst h2
      exact ⟨rfl, rfl⟩

lemma convCells_keys {fields : List (String × Json)} {m : String} :
    ∀ {cs : List String} {row : List (String × Option Measurement)},
      convCells fields m cs = .ok row → row.map Prod.fst = cs := by
  intro cs
  induction cs with
  | nil =>
      intro row h
      injection h with h
      rw [← h]
      rfl
  | cons c cs' ih =>
      intro row h
      unfold convCells at h
      obtain ⟨dj, hdj, h⟩ := bind_eq_ok h
      obtain ⟨dobj, hdobj, h⟩ := bind_eq_ok h
      obtain ⟨mrowj, hmrowj, h⟩ := bind_eq_ok h
      obtain ⟨mrow, hmrow, h⟩ := bind_eq_ok h
      obtain ⟨vj, hvj, h⟩ := bind_eq_ok h
      obtain ⟨v, hv, h⟩ := bind_eq_ok h
      obtain ⟨rest, hrest, h⟩ := bind_eq_ok h
      injection h with h
      rw [← h]
      simp [ih hrest]

lemma convData_shape {fields : List (String × Json)} {cs : List String} :
    ∀ {ms : List String} {data : List (String × List (String × Option Measurement))},
      convData fields ms cs = .ok data →
      data.map Prod.fst = ms ∧ ∀ r ∈ data, r.2.map Prod.fst = cs := by
  intro ms
  induction ms with
  | nil =>
      intro data h
      injection h with h
      rw [← h]
      exact ⟨rfl, fun r hr => by cases hr⟩
  | cons m ms' ih =>
      intro data h
      unfold convData at h
      obtain ⟨row, hrow, h⟩ := bind_eq_ok h
      obtain ⟨rest, hrest, h⟩ := bind_eq_ok h
      injection h with h
      rw [← h]
      obtain ⟨ih1, ih2⟩ := ih hrest
      refine ⟨by simp [ih1], ?_⟩
      intro r hr
      rcases List.mem_cons.mp hr with h1 | h1
      · rw [h1]
        exact convCells_keys hrow
      · exact ih2 r h1

lemma dict_to_project_DataComplete {d : Json} {p : ProjectData}
    (h : dict_to_project d = .ok p) : DataComplete p := by
  unfold dict_to_project at h
  cases d with
  | obj fields =>
      obtain ⟨ipj, _, h⟩ := bind_eq_ok h
      obtain ⟨ip, _, h⟩ := bind_eq_ok h
      obtain ⟨dkj, _, h⟩ := bind_eq_ok h
      obtain ⟨dk, _, h⟩ := bind_eq_ok h
      obtain ⟨cj, _, h⟩ := bind_eq_ok h
      obtain ⟨center, _, h⟩ := bind_eq_ok h
      obtain ⟨mj, _, h⟩ := bind_eq_ok h
      obtain ⟨months, _, h⟩ := bind_eq_ok h
      obtain ⟨catj, _, h⟩ := bind_eq_ok h
      obtain ⟨cats, _, h⟩ := bind_eq_ok h
      obtain ⟨data, hdata, h⟩ := bind_eq_ok h
      injection h with h
      rw [← h]
      exact convData_shape hdata
  | null => cases h
  | bool b => cases h
  | num q => cases h
  | str s => cases h
  | arr xs => cases h

lemma StInv_nextItem {t : AppState} (h : StInv t) : StInv (nextItem t) := by
  obtain ⟨h1, h2⟩ := h
  constructor
  · rw [nextItem_project]; exact h1
  · intro e he
    rw [nextItem_undo_stack] at he
    rw [nextItem_project]
    exact h2 e he

/-- C7.  The §3 invariant — the data mapping holds an entry (null or a
Measurement) for every (month, category) pair — holds for the empty project,
for every project a snapshot converts to, and is preserved by every state
operation of the app (clicks in both modes, mark missing, undo, clear all,
remeasure, cursor moves, jump, save, CSV export). -/
theorem c7_data_invariant (hypot : ℚ × ℚ → ℚ × ℚ → ℚ) :
    (∀ (ip dk : String) (ms cs : List String),
        DataComplete (make_empty_project ip dk ms cs))
    ∧ (∀ (d : Json) (p : ProjectData), dict_to_project d = .ok p → DataComplete p)
    ∧ (∀ (a : Action) (s : AppState), StInv s → StInv (stepAction hypot a s)) := by
  refine ⟨?_, ?_, ?_⟩
  · intro ip dk ms cs
    constructor
    · show (ms.map (fun m => (m, cs.map (fun c => (c, none))))).map Prod.fst = ms
      rw [List.map_map]
      show ms.map (fun m => m) = ms
      exact List.map_id' ms
    · intro r hr
      simp only [make_empty_project, List.mem_map] at hr
      obtain ⟨m, _, hm⟩ := hr
      rw [← hm]
      show (cs.map (fun c => ((c, none) : String × Option Measurement))).map Prod.fst = cs
      rw [List.map_map]
      show cs.map (fun c => c) = cs
      exact List.map_id' cs
  · intro d p h
    exact dict_to_project_DataComplete h
  · intro a s hinv
    obtain ⟨hdc, hstk⟩ := hinv
    cases a with
    | click x y =>
        by_cases hsc : s.setting_center
        · simp only [stepAction, onClick, hsc, if_true]
          exact ⟨hdc, hstk⟩
        · rw [Bool.not_eq_true] at hsc
          rcases hctr : s.project.center_xy with _ | ctr
          · simp only [stepAction, onClick, hsc, Bool.false_eq_true, if_false, hctr]
            exact ⟨hdc, hstk⟩
          · rcases hcur : currentMonthCat s with _ | ⟨month, cat⟩
            · simp only [stepAction, onClick, hsc, Bool.false_eq_true, if_false, hctr,
                hcur]
              exact ⟨hdc, hstk⟩
            · obtain ⟨hgm, hgc⟩ := currentMonthCat_inv hcur
              have hmm : month ∈ s.project.months := List.get?_mem hgm
              have hcm : cat ∈ s.project.categories := List.get?_mem hgc
              simp only [stepAction, onClick, hsc, Bool.false_eq_true, if_false, hctr,
                hcur]
              apply StInv_nextItem
              constructor
              · exact DCdata_setCell month _ hdc hcm
              · intro e he
                rcases List.mem_cons.mp he with h1 | h1
                · rw [h1]; exact ⟨hmm, hcm⟩
                · exact hstk e h1
    | toggleCenter => exact ⟨hdc, hstk⟩
    | nextStep => exact StInv_nextItem ⟨hdc, hstk⟩
    | prevStep =>
        show StInv (prevItem s)
        unfold prevItem
        by_cases h1 : s.month_i = 0 ∧ s.cat_i = 0
        · rw [if_pos h1]; exact ⟨hdc, hstk⟩
        · rw [if_neg h1]
          by_cases h2 : s.cat_i = 0
          · rw [if_pos h2]; exact ⟨hdc, hstk⟩
          · rw [if_neg h2]; exact ⟨hdc, hstk⟩
    | jumpStep =>
        show StInv (jumpToUnfilledOp s)
        unfold jumpToUnfilledOp
        rcases h : firstUnfilled s.project.data s.project.categories s.project.months
          with _ | ⟨mi, ci⟩ <;> simp only [h] <;> exact ⟨hdc, hstk⟩
    | markMissing =>
        rcases hctr : s.project.center_xy with _ | ctr
        · simp only [stepAction, markMissingOp, hctr]
          exact ⟨hdc, hstk⟩
        · rcases hcur : currentMonthCat s with _ | ⟨month, cat⟩
          · simp only [stepAction, markMissingOp, hctr, hcur]
            exact ⟨hdc, hstk⟩
          · obtain ⟨hgm, hgc⟩ := currentMonthCat_inv hcur
            have hmm : month ∈ s.project.months := List.get?_mem hgm
            have hcm : cat ∈ s.project.categories := List.get?_mem hgc
            simp only [stepAction, markMissingOp, hctr, hcur]
            apply StInv_nextItem
            constructor
            · exact DCdata_setCell month _ hdc hcm
            · intro e he
              rcases List.mem_cons.mp he with h1 | h1
              · rw [h1]; exact ⟨hmm, hcm⟩
              · exact hstk e h1
    | undoStep =>
        rcases hstack : s.undo_stack with _ | ⟨⟨month, cat, prev⟩, rest⟩
        · simp only [stepAction, undoOp, hstack]
          exact ⟨hdc, hstk⟩
        · have hentry := hstk (month, cat, prev) (by rw [hstack]; exact List.mem_cons_self _ _)
          rcases hmi : findIdxP (fun m => m = month) s.project.months with _ | mi
          · simp only [stepAction, undoOp, hstack, hmi]
            exact ⟨hdc, hstk⟩
          · rcases hci : findIdxP (fun c => c = cat) s.project.categories with _ | ci
            · simp only [stepAction, undoOp, hstack, hmi, hci]
              exact ⟨hdc, hstk⟩
            · simp only [stepAction, undoOp, hstack, hmi, hci]
              constructor
              · exact DCdata_setCell month prev hdc hentry.2
              · intro e he
                exact hstk e (by rw [hstack]; exact List.mem_cons_of_mem _ he)
    | clearAllStep confirmed =>
        cases confirmed with
        | false =>
            simp only [stepAction, clearAllOp, Bool.false_eq_true, if_false]
            exact ⟨hdc, hstk⟩
        | true =>
            simp only [stepAction, clearAllOp, if_true]
            constructor
            · exact DCdata_clearData (fun x hx => hx) s.project.months hdc
            · intro e he
              cases he
    | remeasureStep =>
        rcases hctr : s.project.center_xy with _ | ctr
        · simp only [stepAction, remeasureOp, hctr]
          exact ⟨hdc, hstk⟩
        · rcases hcur : currentMonthCat s with _ | ⟨month, cat⟩
          · simp only [stepAction, remeasureOp, hctr, hcur]
            exact ⟨hdc, hstk⟩
          · obtain ⟨hgm, hgc⟩ := currentMonthCat_inv hcur
            have hmm : month ∈ s.project.months := List.get?_mem hgm
            have hcm : cat ∈ s.project.categories := List.get?_mem hgc
            rcases hcell : dataGet s.project.data month cat with _ | prev
            · simp only [stepAction, remeasureOp, hctr, hcur, hcell]
              exact ⟨hdc, hstk⟩
            · simp only [stepAction, remeasureOp, hctr, hcur, hcell]
              constructor
              · exact DCdata_setCell month none hdc hcm
              · intro e he
                rcases List.mem_cons.mp he with h1 | h1
                · rw [h1]; exact ⟨hmm, hcm⟩
                · exact hstk e h1
    | saveStep => exact ⟨hdc, hstk⟩
    | exportStep =>
        show StInv (exportCsvOp s)
        unfold exportCsvOp
        rcases h : s.project.center_xy with _ | ctr <;> simp only [h] <;>
          exact ⟨hdc, hstk⟩

/-- Witness for C7: the invariant holds at the sample state and is preserved
by marking the current cell missing there. -/
theorem c7_data_invariant_witness :
    (dict_to_project (Json.obj
        [("image_path", .str "deaths.jpg"), ("diagram_key", .str "right"),
         ("center_xy", .null), ("months", .arr [.str "1854-04"]),
         ("categories", .arr [.str "wounds"]),
         ("data", .obj [("1854-04", .obj [("wounds", .null)])])])
      = .ok (make_empty_project "deaths.jpg" "right" ["1854-04"] ["wounds"])
      ∧ DataComplete (make_empty_project "deaths.jpg" "right" ["1854-04"] ["wounds"]))
    ∧ (StInv sSample
      ∧ StInv (stepAction (fun _ _ => 0) Action.markMissing sSample)) :=
  ⟨⟨rfl, (c7_data_invariant (fun _ _ => 0)).2.1 (Json.obj
        [("image_path", .str "deaths.jpg"), ("diagram_key", .str "right"),
         ("center_xy", .null), ("months", .arr [.str "1854-04"]),
         ("categories", .arr [.str "wounds"]),
         ("data", .obj [("1854-04", .obj [("wounds", .null)])])])
      (make_empty_project "deaths.jpg" "right" ["1854-04"] ["wounds"]) rfl⟩,
    ⟨by decide, (c7_data_invariant (fun _ _ => 0)).2.2 Action.markMissing sSample
      (by decide)⟩⟩

/-! ## C5: the CSV export and its short null-cell rows -/

/-- A project with the center set and one unmeasured cell — any such project
makes export_csv write a six-field row under an eight-column header. -/
def pNullCell : ProjectData :=
  { image_path := "deaths.jpg"
    diagram_key := "right"
    center_xy := some (10, 20)
    months := ["1854-04"]
    categories := ["wounds"]
    data := [("1854-04", [("wounds", none)])] }

/-- C5 evaluated at the failing input: the header row declares eight columns,
but the row export_csv writes for an unmeasured (null) cell —
`f"{m},{c},,,,"` — has only six fields (month, category and four empties), so
it lacks two of the eight columns the claim requires of every row. -/
theorem c5_csv_null_row_bug :
    exportRows pNullCell
      = [headerRow,
         [.str "1854-04", .str "wounds", .empty, .empty, .empty, .empty]]
    ∧ headerRow.length = 8
    ∧ ([CsvField.str "1854-04", .str "wounds", .empty, .empty, .empty, .empty]
        : List CsvField).length = 6 :=
  ⟨rfl, rfl, rfl⟩

/-! ## C1: project serialization round-trip -/

lemma strListOf_map : ∀ (ms : List String), strListOf (ms.map .str) = .ok ms := by
  intro ms
  induction ms with
  | nil => rfl
  | cons m ms' ih =>
      show (do
        let s ← asStr (.str m)
        let rest ← strListOf (ms'.map .str)
        .ok (s :: rest) : Except LoadErr (List String)) = .ok (m :: ms')
      rw [show asStr (.str m) = .ok m from rfl, except_bind_ok, ih, except_bind_ok]

lemma json_to_meas_cellJson (v : Option Measurement) :
    json_to_meas (cellJson v) = .ok v := by
  cases v with
  | none => rfl
  | some meas =>
      obtain ⟨r, click, miss⟩ := meas
      cases click with
      | none => cases miss <;> rfl
      | some xy =>
          obtain ⟨x, y⟩ := xy
          cases miss <;> rfl

lemma convCells_rt {L : List (String × Json)}
    {data : List (String × List (String × Option Measurement))}
    {months cats : List String} {m : String}
    (hL : alookup "data" L
      = some (.obj (months.map (fun m' => (m', rowToJson data m' cats)))))
    (hm : m ∈ months) :
    ∀ {cs' : List String}, (∀ c ∈ cs', c ∈ cats) →
      convCells L m cs' = .ok (cs'.map (fun c => (c, dataGet data m c))) := by
  intro cs'
  induction cs' with
  | nil => intro _; rfl
  | cons c cs'' ih =>
      intro hsub
      have h1 : keyE "data" L
          = .ok (.obj (months.map (fun m' => (m', rowToJson data m' cats)))) := by
        unfold keyE
        rw [hL]
      have h2 : keyE m (months.map (fun m' => (m', rowToJson data m' cats)))
          = .ok (rowToJson data m cats) := by
        unfold keyE
        rw [alookup_map_self (fun m' => rowToJson data m' cats) hm]
      have h3 : keyE c (cats.map (fun c' => (c', cellJson (dataGet data m c'))))
          = .ok (cellJson (dataGet data m c)) := by
        unfold keyE
        rw [alookup_map_self (fun c' => cellJson (dataGet data m c'))
          (hsub c (List.mem_cons_self _ _))]
      unfold convCells
      rw [h1, except_bind_ok]
      show (do
        let mrowj ← keyE m (months.map (fun m' => (m', rowToJson data m' cats)))
        let mrow ← asObjE "month row is not an object" mrowj
        let vj ← keyE c mrow
        let v ← json_to_meas vj
        let rest ← convCells L m cs''
        .ok ((c, v) :: rest) : Except LoadErr (List (String × Option Measurement))) = _
      rw [h2, except_bind_ok]
      show (do
        let vj ← keyE c (cats.map (fun c' => (c', cellJson (dataGet data m c'))))
        let v ← json_to_meas vj
        let rest ← convCells L m cs''
        .ok ((c, v) :: rest) : Except LoadErr (List (String × Option Measurement))) = _
      rw [h3, except_bind_ok, json_to_meas_cellJson, except_bind_ok,
        ih (fun x hx => hsub x (List.mem_cons_of_mem _ hx)), except_bind_ok]
      rfl

lemma convData_rt {L : List (String × Json)}
    {data : List (String × List (String × Option Measurement))}
    {months cats : List String}
    (hL : alookup "data" L
      = some (.obj (months.map (fun m' => (m', rowToJson data m' cats))))) :
    ∀ {ms' : List String}, (∀ m ∈ ms', m ∈ months) →
      convData L ms' cats
        = .ok (ms'.map (fun m => (m, cats.map (fun c => (c, dataGet data m c))))) := by
  intro ms'
  induction ms' with
  | nil => intro _; rfl
  | cons m ms'' ih =>
      intro hsub
      unfold convData
      rw [convCells_rt hL (hsub m (List.mem_cons_self _ _)) (fun c hc => hc),
        except_bind_ok, ih (fun x hx => hsub x (List.mem_cons_of_mem _ hx)),
        except_bind_ok]
      rfl

lemma data_reconstruct {data : List (String × List (String × Option Measurement))}
    {months cats : List String}
    (hkeys : data.map Prod.fst = months)
    (hrows : ∀ r ∈ data, r.2.map Prod.fst = cats)
    (hmnd : months.Nodup) (hcnd : cats.Nodup) :
    months.map (fun m => (m, cats.map (fun c => (c, dataGet data m c)))) = data := by
  have hnd : (data.map Prod.fst).Nodup := by rw [hkeys]; exact hmnd
  rw [← hkeys]
  apply alist_reconstruct
  intro r hr
  have hlk : alookup r.1 data = some r.2 := alookup_of_mem_nodup hnd hr
  have hdg : ∀ c, dataGet data r.1 c = (alookup c r.2).getD none := by
    intro c
    unfold dataGet
    rw [hlk]
  have hrk : r.2.map Prod.fst = cats := hrows r hr
  have hrnd : (r.2.map Prod.fst).Nodup := by rw [hrk]; exact hcnd
  show cats.map (fun c => (c, dataGet data r.1 c)) = r.2
  rw [funext hdg, ← hrk]
  apply alist_reconstruct
  intro q hq
  have := alookup_of_mem_nodup hrnd hq
  rw [this]
  rfl

/-- C1.  For every Project whose data mapping has exactly one entry per
(month, category) pair — with distinct month and category names, as Python
dict keys are — serializing with project_to_dict and deserializing with
dict_to_project yields the identical Project (any center, any cell values:
null, recorded click or missing marker). -/
theorem c1_roundtrip (p : ProjectData) (hdc : DataComplete p)
    (hmnd : p.months.Nodup) (hcnd : p.categories.Nodup) :
    dict_to_project (project_to_dict p) = .ok p := by
  obtain ⟨hkeys, hrows⟩ := hdc
  have hcenter : asCenter (centerJson p.center_xy) = .ok p.center_xy := by
    rcases p.center_xy with _ | ⟨x, y⟩ <;> rfl
  have hmonths : strListOf (p.months.map .str) = .ok p.months := strListOf_map p.months
  have hcats : strListOf (p.categories.map .str) = .ok p.categories :=
    strListOf_map p.categories
  have hL : alookup "data"
      [("image_path", Json.str p.image_path),
       ("diagram_key", Json.str p.diagram_key),
       ("center_xy", centerJson p.center_xy),
       ("months", Json.arr (p.months.map .str)),
       ("categories", Json.arr (p.categories.map .str)),
       ("data", Json.obj (p.months.map (fun m => (m, rowToJson p.data m p.categories))))]
      = some (.obj (p.months.map (fun m' => (m', rowToJson p.data m' p.categories)))) :=
    rfl
  have hdata : convData
      [("image_path", Json.str p.image_path),
       ("diagram_key", Json.str p.diagram_key),
       ("center_xy", centerJson p.center_xy),
       ("months", Json.arr (p.months.map .str)),
       ("categories", Json.arr (p.categories.map .str)),
       ("data", Json.obj (p.months.map (fun m => (m, rowToJson p.data m p.categories))))]
      p.months p.categories
      = .ok (p.months.map (fun m =>
          (m, p.categories.map (fun c => (c, dataGet p.data m c))))) :=
    convData_rt hL (fun m hm => hm)
  calc dict_to_project (project_to_dict p)
      = (asCenter (centerJson p.center_xy) >>= fun center' =>
         strListOf (p.months.map .str) >>= fun months' =>
         strListOf (p.categories.map .str) >>= fun cats' =>
         convData
           [("image_path", Json.str p.image_path),
            ("diagram_key", Json.str p.diagram_key),
            ("center_xy", centerJson p.center_xy),
            ("months", Json.arr (p.months.map .str)),
            ("categories", Json.arr (p.categories.map .str)),
            ("data", Json.obj (p.months.map (fun m => (m, rowToJson p.data m p.categories))))]
           months' cats' >>= fun data' =>
         .ok { image_path := p.image_path, diagram_key := p.diagram_key,
               center_xy := center', months := months', categories := cats',
               data := data' }) := rfl
    _ = .ok p := by
        rw [hcenter, except_bind_ok, hmonths, except_bind_ok, hcats, except_bind_ok,
          hdata, except_bind_ok, data_reconstruct hkeys hrows hmnd hcnd]

/-- Witness for C1 at the sample project (a recorded click, a missing marker
and two null cells). -/
theorem c1_roundtrip_witness :
    (DataComplete pSample ∧ pSample.months.Nodup ∧ pSample.categories.Nodup)
    ∧ dict_to_project (project_to_dict pSample) = .ok pSample :=
  ⟨⟨by decide, by decide, by decide⟩,
    c1_roundtrip pSample (by decide) (by decide) (by decide)⟩

end Digitizer
